import Mathlib

/-!
Flight-booking webhook: parameter normalisation and result shaping.

A shallow embedding of `main.go`.  Values decoded from JSON into Go's
`interface{}` are the inductive type `Value`; Go strings that come out of the
JSON decoder are valid UTF-8 and are modelled by `String`, with `len` and
byte slicing expressed through the UTF-8 width of each character.  A failed
unchecked type assertion (`x.(T)` without the comma-ok form) is a runtime
panic: functions that can panic return `Option`, and `none` is the panic.

Two pieces of the Go standard library are not part of the repository and are
taken as a parameter (`Lib`): the `%v` rendering of numbers, slices and maps,
the Unicode upper-case table above ASCII, and the result of converting to
`int` a `float64` out of the range of `int`.  The functions `time.Parse`,
`Time.Format`, `fmt.Sprintf` of integers and `strconv.Atoi` are modelled by
their documented behaviour; `int` has 64 bits.  The reading of `time.Now()` is
a parameter (`Clock`).
-/

namespace FlightBooking

/-! ## Data model -/

/-- A value as `encoding/json` decodes it into `interface{}`: `nil`, `bool`,
`float64`, `string`, `[]interface{}` or `map[string]interface{}`.  Numbers are
carried as rationals (every finite `float64` is one). -/
inductive Value where
  | null : Value
  | bool (b : Bool) : Value
  | num (x : ℚ) : Value
  | str (s : String) : Value
  | arr (xs : List Value) : Value
  | obj (kvs : List (String × Value)) : Value

/-- The standard-library behaviour the handler relies on and the repository
does not contain. -/
structure Lib where
  /-- Text that `fmt.Sprintf("%v", x)` gives for a number, a slice or a map. -/
  formatValue : Value → String
  /-- The table `unicode.To(unicode.UpperCase, r)` for a rune above ASCII. -/
  upperCase : Char → Char
  /-- What the conversion `int(x)` gives for a `float64` whose integer part
  does not fit in 64 bits (the language leaves it to the implementation). -/
  convertOverflow : ℚ → Int

/-- The record `FlightOption` of the source.  `Price` and `Duration` are
`interface{}` fields holding the provider's value as it came; `ConnectionInfo`
is an `interface{}` that holds `nil` (`none`) or a string. -/
structure FlightOption where
  ID : Nat
  Airline : String
  Airplane : String
  Price : Value
  DepartureDate : String
  Origin : String
  Destination : String
  Duration : Value
  TravelClass : String
  IsNonstop : Bool
  ConnectionInfo : Option String

/-- What the handler writes with status 200: the text lines of the single
fulfilment message and the session parameters. -/
structure Reply where
  messageLines : List String
  flightOptions : List FlightOption
  origin : String
  destination : String

/-! ## Go primitives -/

/-- The two-result map read `v, ok := m[k]`: the value stored under the key. -/
def lookup (k : String) : List (String × Value) → Option Value
  | [] => none
  | (k', v) :: rest => if k' = k then some v else lookup k rest

/-- The one-result map read `m[k]`: `nil` when the key is absent. -/
def index (m : List (String × Value)) (k : String) : Value :=
  (lookup k m).getD Value.null

/-- The assertion `xs, _ := v.([]interface{})`: the nil slice when `v` is not
an array. -/
def asArray : Value → List Value
  | Value.arr xs => xs
  | _ => []

/-- The verb `%v` of `fmt.Sprintf` on a decoded value. -/
def sprintV (lib : Lib) : Value → String
  | Value.null => "<nil>"
  | Value.str s => s
  | Value.bool b => if b then "true" else "false"
  | v => lib.formatValue v

/-- The verb `%d` on a non-negative `int`. -/
def sprintD (n : Nat) : String := Nat.repr n

/-- Width in bytes of a character in UTF-8 (`utf8.RuneLen`). -/
def runeLen (c : Char) : Nat :=
  if c.toNat < 0x80 then 1
  else if c.toNat < 0x800 then 2
  else if c.toNat < 0x10000 then 3
  else 4

/-- Go's `len(s)`: the number of bytes of the string. -/
def byteLen (s : List Char) : Nat := (s.map runeLen).sum

/-- The runes a `range` loop reads from the byte slice `s[:n]` (for
`n ≤ len(s)`): the characters that fit whole, then one `U+FFFD` for each byte
of a character the slice cuts. -/
def sliceRunes : Nat → List Char → List Char
  | 0, _ => []
  | _, [] => []
  | n + 1, c :: cs =>
    if runeLen c ≤ n + 1 then c :: sliceRunes (n + 1 - runeLen c) cs
    else List.replicate (n + 1) (Char.ofNat 0xFFFD)

/-- The function `unicode.ToUpper`: the ASCII letters directly, the table
above ASCII. -/
def toUpperRune (lib : Lib) (c : Char) : Char :=
  if c.toNat ≤ 0x7F then
    (if 97 ≤ c.toNat ∧ c.toNat ≤ 122 then Char.ofNat (c.toNat - 32) else c)
  else lib.upperCase c

/-- The expression `strings.ToUpper(s[:3])` for a string with `len(s) >= 3`. -/
def upperPrefix3 (lib : Lib) (s : String) : String :=
  String.mk ((sliceRunes 3 s.data).map (toUpperRune lib))

/-! ## Parameter normaliser -/

/-- The guarded return `if s, ok := x.(string); ok && len(s) >= 3` applied to
the result of a two-result map read: the code returned, or `none` when control
falls through. -/
def codeFromField (lib : Lib) : Option Value → Option String
  | some (Value.str s) => if byteLen s.data ≥ 3 then some (upperPrefix3 lib s) else none
  | _ => none

/-- The function `extractCityCode` of the source. -/
def extractCityCode (lib : Lib) (param : Value) : String :=
  match param with
  | Value.obj v =>
    match codeFromField lib (lookup "city" v) with
    | some code => code
    | none =>
      match codeFromField lib (lookup "original" v) with
      | some code => code
      | none => "UNK"
  | Value.str v => if byteLen v.data ≥ 3 then upperPrefix3 lib v else "UNK"
  | _ => "UNK"

/-! ## Dates and integers as text -/

/-- A civil date, as `Year()`, `Month()` and `Day()` read it from a
`time.Time` (a year of the Common Era). -/
structure Date where
  year : Nat
  month : Nat
  day : Nat

/-- Leap years of the Gregorian calendar. -/
def isLeap (year : Nat) : Bool :=
  year % 4 == 0 && (year % 100 != 0 || year % 400 == 0)

/-- The number of days of a month (`daysIn` of package `time`). -/
def daysIn (month year : Nat) : Nat :=
  if month = 2 then (if isLeap year then 29 else 28)
  else if month = 4 ∨ month = 6 ∨ month = 9 ∨ month = 11 then 30
  else 31

/-- A date of the calendar: a month from 1 to 12 and a day of that month. -/
def Date.valid (d : Date) : Bool :=
  decide (1 ≤ d.month) && decide (d.month ≤ 12) && decide (1 ≤ d.day) &&
    decide (d.day ≤ daysIn d.month d.year)

/-- The day after a date. -/
def nextDay (d : Date) : Date :=
  if d.day < daysIn d.month d.year then { d with day := d.day + 1 }
  else if d.month < 12 then { year := d.year, month := d.month + 1, day := 1 }
  else { year := d.year + 1, month := 1, day := 1 }

/-- The date `n` days after a date. -/
def addDays : Nat → Date → Date
  | 0, d => d
  | n + 1, d => addDays n (nextDay d)

/-- The day before a date (the calendar starts with year 0). -/
def prevDay (d : Date) : Date :=
  if 1 < d.day then { d with day := d.day - 1 }
  else if 1 < d.month then
    { year := d.year, month := d.month - 1, day := daysIn (d.month - 1) d.year }
  else { year := d.year - 1, month := 12, day := 31 }

/-- The date `n` days before a date. -/
def subDays : Nat → Date → Date
  | 0, d => d
  | n + 1, d => subDays n (prevDay d)

/-- The date a signed number of days away from a date. -/
def shiftDays (k : Int) (d : Date) : Date :=
  if 0 ≤ k then addDays k.toNat d else subDays (-k).toNat d

/-- The character of a decimal digit. -/
def digitChar : Nat → Char
  | 0 => '0'
  | 1 => '1'
  | 2 => '2'
  | 3 => '3'
  | 4 => '4'
  | 5 => '5'
  | 6 => '6'
  | 7 => '7'
  | 8 => '8'
  | _ => '9'

/-- Whether a character is one of `0` to `9`. -/
def isDigit (c : Char) : Bool := decide (48 ≤ c.toNat) && decide (c.toNat ≤ 57)

/-- The value of a decimal digit character. -/
def digitVal (c : Char) : Nat := c.toNat - 48

/-- The number a sequence of decimal digits denotes. -/
def digitsValue (ds : List Char) : Nat :=
  ds.foldl (fun acc c => 10 * acc + digitVal c) 0

/-- The decimal digits of `n` in front of `acc`, by repeated division. -/
def decimalAux : Nat → Nat → List Char → List Char
  | 0, _, acc => acc
  | fuel + 1, n, acc =>
    if n < 10 then digitChar n :: acc
    else decimalAux fuel (n / 10) (digitChar (n % 10) :: acc)

/-- The decimal digits of a natural number, without leading zeros. -/
def decimal (n : Nat) : List Char := decimalAux (n + 1) n []

/-- The `w` low decimal digits of `n`, most significant first. -/
def fixedDigits : Nat → Nat → List Char
  | 0, _ => []
  | w + 1, n => fixedDigits w (n / 10) ++ [digitChar (n % 10)]

/-- The decimal digits of `x` padded with zeros on the left to `width` digits
(`appendInt` of package `time` on a non-negative number). -/
def appendInt (width : Nat) (x : Nat) : List Char :=
  if x < 10 ^ width then fixedDigits width x else decimal x

/-- The verb `%0Nd` of `fmt.Sprintf` with `N = width`: zero padding to the
width, the sign counting in it. -/
def sprintfPad (width : Nat) (x : Int) : List Char :=
  if x < 0 then '-' :: appendInt (width - 1) x.natAbs else appendInt width x.toNat

/-- The call `fmt.Sprintf("%04d-%02d-%02d", year, month, day)`. -/
def sprintfDate (year month day : Int) : String :=
  String.mk (sprintfPad 4 year ++ '-' :: (sprintfPad 2 month ++ '-' :: sprintfPad 2 day))

/-- The call `t.Format("2006-01-02")`. -/
def formatDate (d : Date) : String :=
  String.mk (appendInt 4 d.year ++ '-' :: (appendInt 2 d.month ++ '-' :: appendInt 2 d.day))

/-- The call `time.Parse("2006-01-02", s)`: four digits, a dash, two digits, a
dash, two digits and nothing else, the month from 1 to 12 and the day within
the month; `none` is the error. -/
def timeParse (s : String) : Option Date :=
  match s.data with
  | [y1, y2, y3, y4, s1, m1, m2, s2, d1, d2] =>
    if isDigit y1 && isDigit y2 && isDigit y3 && isDigit y4 && decide (s1 = '-') &&
        isDigit m1 && isDigit m2 && decide (s2 = '-') && isDigit d1 && isDigit d2 then
      let year := digitsValue [y1, y2, y3, y4]
      let month := digitsValue [m1, m2]
      let day := digitsValue [d1, d2]
      if 1 ≤ month ∧ month ≤ 12 ∧ 1 ≤ day ∧ day ≤ daysIn month year then
        some { year := year, month := month, day := day }
      else none
    else none
  | _ => none

/-- The conversion `int(x)` of a `float64`: the fraction is discarded; a result
out of the 64-bit range is left to the implementation. -/
def floatToInt (lib : Lib) (x : ℚ) : Int :=
  if -(2 ^ 63) ≤ Int.tdiv x.num x.den ∧ Int.tdiv x.num x.den < 2 ^ 63 then Int.tdiv x.num x.den
  else Int.bmod (lib.convertOverflow x) (2 ^ 64)

/-- The call `strconv.Atoi(s)`: an optional sign, then one or more decimal
digits, denoting a number that fits in 64 bits; `none` is the error. -/
def atoi (s : String) : Option Int :=
  match s.data with
  | [] => none
  | c :: rest =>
    let neg := decide (c = '-')
    let ds := if c = '-' ∨ c = '+' then rest else c :: rest
    if ds.isEmpty || !ds.all isDigit then none
    else
      let v : Int := if neg then -(digitsValue ds : Int) else (digitsValue ds : Int)
      if -(2 ^ 63) ≤ v ∧ v < 2 ^ 63 then some v else none

/-! ## Parameter normaliser: dates and passenger count -/

/-- What the function reads from `time.Now()`, an instant in the server's local
zone: the civil date and the time of day that the local clock shows, and by
how many seconds the zone's offset from UTC at the instant 7 * 24 hours later
differs from its offset now (zero unless the zone changes its offset within
the week, as at the start or end of daylight-saving time). -/
structure Clock where
  today : Date
  secondOfDay : Nat
  offsetChange : Int

/-- The civil date of `defaultDate := now.Add(7 * 24 * time.Hour)` (line 94):
the local clock shows, 168 hours later, the time it shows now moved by seven
days and by the change of the zone's offset. -/
def defaultDate (clock : Clock) : Date :=
  shiftDays (7 + ((clock.secondOfDay : Int) + clock.offsetChange) / 86400) clock.today

/-- The function `parseDepartureDate` of the source, with the reading of
`time.Now()` as a parameter. -/
def parseDepartureDate (lib : Lib) (clock : Clock) (param : Value) : String :=
  match param with
  | Value.null => formatDate (defaultDate clock)
  | Value.obj v =>
    let year : Int :=
      match index v "year" with
      | Value.num y => floatToInt lib y
      | _ => (clock.today.year : Int)
    let month : Int :=
      match index v "month" with
      | Value.num m => floatToInt lib m
      | _ => (clock.today.month : Int)
    let day : Int :=
      match index v "day" with
      | Value.num d => floatToInt lib d
      | _ => (clock.today.day : Int)
    match timeParse (sprintfDate year month day) with
    | none => formatDate (defaultDate clock)
    | some t => formatDate t
  | Value.str v =>
    match timeParse v with
    | none => formatDate (defaultDate clock)
    | some _ => v
  | _ => formatDate (defaultDate clock)

/-- The value of `returnDate` (lines 149–150): the parse error is dropped, so
an unparsable departure date counts from the zero time, 1 January of year 1.
The parsed time is in UTC, where 7 * 24 hours are seven days. -/
def SkyscannerWebhook.returnDate (departureDate : String) : String :=
  formatDate (addDays 7 ((timeParse departureDate).getD { year := 1, month := 1, day := 1 }))

/-- The value of `adults` (lines 152–162). -/
def SkyscannerWebhook.adults (lib : Lib) (params : List (String × Value)) : Int :=
  match lookup "passenger_count" params with
  | some (Value.num v) => floatToInt lib v
  | some (Value.str v) =>
    match atoi v with
    | some i => i
    | none => 1
  | _ => 1

/-- The values the handler puts in the provider query (lines 144–167). -/
structure Query where
  departureCode : String
  destinationCode : String
  departureDate : String
  returnDate : String
  adults : Int

/-- The normalisation of the request parameters (lines 144–162). -/
def SkyscannerWebhook.query (lib : Lib) (clock : Clock) (params : List (String × Value)) :
    Query :=
  let departureDate := parseDepartureDate lib clock (index params "departure_date")
  { departureCode := extractCityCode lib (index params "departure_city")
    destinationCode := extractCityCode lib (index params "destination_city")
    departureDate := departureDate
    returnDate := SkyscannerWebhook.returnDate departureDate
    adults := SkyscannerWebhook.adults lib params }

/-! ## Result normaliser -/

/-- The inner loop over `si` (lines 226–232), run over the legs
`flightsArr[0 .. len-2]`: a leg that is not an object panics; a leg whose
`arrival_airport` is an object with a string `name` contributes that name. -/
def collectStops : List Value → List String → Option (List String)
  | [], stops => some stops
  | Value.obj leg :: rest, stops =>
    match index leg "arrival_airport" with
    | Value.obj arr =>
      match index arr "name" with
      | Value.str name => collectStops rest (stops ++ [name])
      | _ => collectStops rest stops
    | _ => collectStops rest stops
  | _ :: _, _ => none

/-- The value of `depTime` (lines 209–214). -/
def depTimeOf (first : List (String × Value)) : String :=
  match index first "departure_airport" with
  | Value.obj da =>
    match index da "time" with
    | Value.str t => t
    | _ => ""
  | _ => ""

/-- The value of `duration` (lines 216–219). -/
def durationOf (flightGroup : List (String × Value)) : Value :=
  match index flightGroup "total_duration" with
  | Value.null => index flightGroup "duration"
  | d => d

/-- The value of `connectionInfo` (lines 223–234). -/
def connectionInfoOf (flightsArr : List Value) : Option (Option String) :=
  if flightsArr.length = 1 then some none
  else
    match collectStops (flightsArr.take (flightsArr.length - 1)) [] with
    | none => none
    | some stops =>
      some (some (sprintD stops.length ++ " stop(s): " ++ ", ".intercalate stops))

/-- What one iteration of the loop over `allFlights` does once past the
`i >= 5` test. -/
inductive Step where
  | skip : Step
  | emit (line : String) (opt : FlightOption) : Step

/-- The body of the loop over `allFlights` (lines 200–258) at index `i`. -/
def flightGroupStep (lib : Lib) (departureCode destinationCode departureDate : String)
    (i : Nat) (f : Value) : Option Step :=
  match f with
  | Value.obj flightGroup =>
    match asArray (index flightGroup "flights") with
    | [] => some Step.skip
    | Value.obj first :: more =>
      let flightsArr := Value.obj first :: more
      let airline := sprintV lib (index first "airline")
      let price := index flightGroup "price"
      let depTime := depTimeOf first
      let airplane := sprintV lib (index first "airplane")
      let duration := durationOf flightGroup
      let travelClass := sprintV lib (index first "travel_class")
      let isNonstop := decide (flightsArr.length = 1)
      match connectionInfoOf flightsArr with
      | none => none
      | some connectionInfo =>
        some (Step.emit
          (sprintD (i + 1) ++ ". " ++ airline ++ " (" ++ airplane ++ ") Dep: " ++ depTime ++
            ", Price: USD " ++ sprintV lib price ++ ", Duration: " ++ sprintV lib duration ++
            ", Class: " ++ travelClass ++ ", " ++
            (if isNonstop then "Non-stop"
             else
               match connectionInfo with
               | some info => info
               | none => "<nil>"))
          { ID := i + 1
            Airline := airline
            Airplane := airplane
            Price := price
            DepartureDate := departureDate
            Origin := departureCode
            Destination := destinationCode
            Duration := duration
            TravelClass := travelClass
            IsNonstop := isNonstop
            ConnectionInfo := connectionInfo })
    | _ :: _ => none
  | _ => none

/-- The loop `for i, f := range allFlights` (lines 196–259), from index `i` on
the groups still to visit, threading `messageLines` and `flightOptions`. -/
def rangeLoop (lib : Lib) (departureCode destinationCode departureDate : String) :
    Nat → List Value → List String × List FlightOption →
      Option (List String × List FlightOption)
  | _, [], acc => some acc
  | i, f :: rest, acc =>
    if i ≥ 5 then some acc
    else
      match flightGroupStep lib departureCode destinationCode departureDate i f with
      | none => none
      | some Step.skip =>
        rangeLoop lib departureCode destinationCode departureDate (i + 1) rest acc
      | some (Step.emit line opt) =>
        rangeLoop lib departureCode destinationCode departureDate (i + 1) rest
          (acc.1 ++ [line], acc.2 ++ [opt])

/-- The slice `allFlights` (lines 185–187). -/
def allFlights (serpData : List (String × Value)) : List Value :=
  asArray (index serpData "best_flights") ++ asArray (index serpData "other_flights")

/-- The part of `SkyscannerWebhook` after the provider's response is decoded
(lines 184–278): from the resolved codes and date and the decoded response to
the reply, or `none` when the handler panics. -/
def SkyscannerWebhook.results (lib : Lib)
    (departureCode destinationCode departureDate : String)
    (serpData : List (String × Value)) : Option Reply :=
  let all := allFlights serpData
  let out :=
    if all.length = 0 then
      some (["No flights found from " ++ departureCode ++ " to " ++ destinationCode ++
              " on " ++ departureDate ++ "."], [])
    else
      rangeLoop lib departureCode destinationCode departureDate 0 all
        (["Found flights from " ++ departureCode ++ " to " ++ destinationCode ++
            " on " ++ departureDate ++ ":"], [])
  match out with
  | none => none
  | some (messageLines, flightOptions) =>
    some { messageLines := messageLines
           flightOptions := flightOptions
           origin := departureCode
           destination := destinationCode }

/-! ## Vocabulary of the specification -/

/-- The legs of a group as the loop reads them. -/
def legsOf : Value → List Value
  | Value.obj flightGroup => asArray (index flightGroup "flights")
  | _ => []

/-- Whether a group has at least one leg. -/
def hasLegs (f : Value) : Bool := !(legsOf f).isEmpty

/-- Whether a value is a JSON object (the assertion `v.(map[string]interface{})`
succeeds). -/
def isObject : Value → Bool
  | Value.obj _ => true
  | _ => false

/-- A well-formed group: an object whose legs are all objects. -/
def wellFormedGroup (f : Value) : Bool := isObject f && (legsOf f).all isObject

/-- The name a leg contributes to the list of stops: the `name` of its
`arrival_airport`, when both have the expected shape. -/
def arrivalName : Value → Option String
  | Value.obj leg =>
    match index leg "arrival_airport" with
    | Value.obj arr =>
      match index arr "name" with
      | Value.str name => some name
      | _ => none
    | _ => none
  | _ => none

/-- A field of an object, `nil` when absent (and for a value that is not an
object). -/
def field : Value → String → Value
  | Value.obj m, k => index m k
  | _, _ => Value.null

/-- A string in the form YYYY-MM-DD denoting a valid calendar date: the text of
a date of the calendar whose year has four digits. -/
def isDateString (s : String) : Prop :=
  ∃ d : Date, d.valid = true ∧ d.year ≤ 9999 ∧ s = formatDate d

/-- The number of leap years before a year, from year 0 on. -/
def leapYearsBefore (year : Nat) : Nat :=
  (year + 3) / 4 - (year + 99) / 100 + (year + 399) / 400

/-- The number of days of a year that come before a month. -/
def daysBeforeMonth (month : Nat) (leap : Bool) : Nat :=
  (match month with
   | 1 => 0
   | 2 => 31
   | 3 => 59
   | 4 => 90
   | 5 => 120
   | 6 => 151
   | 7 => 181
   | 8 => 212
   | 9 => 243
   | 10 => 273
   | 11 => 304
   | _ => 334) + (if leap && decide (2 < month) then 1 else 0)

/-- The number of a day, counting the days from the start of year 0. -/
def dayNumber (d : Date) : Nat :=
  365 * d.year + leapYearsBefore d.year + daysBeforeMonth d.month (isLeap d.year) + d.day

/-- The decimal text of an integer: a minus sign for a negative number, then
the digits without leading zeros. -/
def renderInt (n : Int) : String :=
  String.mk (if n < 0 then '-' :: decimal n.natAbs else decimal n.toNat)

/-- Leap years of the Gregorian calendar, extended to every integer year. -/
def isLeapYear (year : Int) : Bool :=
  year % 4 == 0 && (year % 100 != 0 || year % 400 == 0)

/-- The number of days of a month of an integer year. -/
def daysOfMonth (month year : Int) : Int :=
  if month = 2 then (if isLeapYear year then 29 else 28)
  else if month = 4 ∨ month = 6 ∨ month = 9 ∨ month = 11 then 30
  else 31

/-- A year, month and day that form a date of the calendar, whatever the year:
a month from 1 to 12 and a day of that month. -/
def isCalendarDate (year month day : Int) : Prop :=
  1 ≤ month ∧ month ≤ 12 ∧ 1 ≤ day ∧ day ≤ daysOfMonth month year

/-- The triples whose text `time.Parse` accepts under the layout 2006-01-02: a
date of the calendar with a year from 0 to 9999. -/
def validYMD (year month day : Int) : Prop :=
  0 ≤ year ∧ year ≤ 9999 ∧ 1 ≤ month ∧ month ≤ 12 ∧ 1 ≤ day ∧
    day ≤ (daysIn month.toNat year.toNat : Int)

/-- A component of a structured date: the field converted to `int` when it is
a number, today's value otherwise. -/
def dateField (lib : Lib) (v : List (String × Value)) (key : String) (today : Nat) : Int :=
  match index v key with
  | Value.num x => floatToInt lib x
  | _ => (today : Int)

/-- A text long enough to cut a city code from: a string of at least 3
bytes. -/
def usableText : Option Value → Option String
  | some (Value.str s) => if byteLen s.data ≥ 3 then some s else none
  | _ => none

/-- The text from which the city code is cut, if any: the string itself, or
the `city` field of an object, or else its `original` field, when that is a
string of at least 3 bytes. -/
def codeText : Value → Option String
  | Value.str s => usableText (some (Value.str s))
  | Value.obj v =>
    match usableText (lookup "city" v) with
    | some s => some s
    | none => usableText (lookup "original" v)
  | _ => none

/-- A text whose first three bytes are three ASCII characters. -/
def startsWithAscii (s : String) : Prop := ∀ c ∈ s.data.take 3, c.toNat < 0x80

/-- The truncation of a rational number toward zero. -/
def truncate (x : ℚ) : Int := Int.tdiv x.num x.den

/-- A component of a structured date as the specification reads it: for a
numeric field its value truncated toward zero (when that does not fit in 64
bits the conversion is left to the implementation, and the component is some
64-bit integer); today's value when the field is absent or not a number. -/
def isComponent (v : List (String × Value)) (key : String) (today : Nat) (c : Int) : Prop :=
  match index v key with
  | Value.num x =>
    if -(2 ^ 63) ≤ truncate x ∧ truncate x < 2 ^ 63 then c = truncate x
    else -(2 ^ 63) ≤ c ∧ c < 2 ^ 63
  | _ => c = (today : Int)

/-! ## Sample data -/

/-- A clock at noon on 28 November 2025 in a zone that keeps its offset. -/
def noonClock : Clock :=
  { today := { year := 2025, month := 11, day := 28 }, secondOfDay := 43200, offsetChange := 0 }

/-- The clock at 23:30 on 8 March 2025 in the zone America/New_York, where
daylight-saving time starts the next day: a week later the offset from UTC is
one hour larger. -/
def springForwardClock : Clock :=
  { today := { year := 2025, month := 3, day := 8 }, secondOfDay := 84600, offsetChange := 3600 }

/-- The clock at 00:30 on 1 November 2025 in the zone America/New_York, where
daylight-saving time ends the next day: a week later the offset from UTC is
one hour smaller. -/
def fallBackClock : Clock :=
  { today := { year := 2025, month := 11, day := 1 }, secondOfDay := 1800, offsetChange := -3600 }

/-- A clock at midnight on 30 December 9999 in a zone that keeps its offset. -/
def endOfYearsClock : Clock :=
  { today := { year := 9999, month := 12, day := 30 }, secondOfDay := 0, offsetChange := 0 }

/-- A stand-in for the standard library, used to evaluate the handler on
sample inputs. -/
def exampleLib : Lib :=
  { formatValue := fun _ => "?"
    upperCase := fun c => c
    convertOverflow := fun _ => 0 }

/-- A leg with every field the handler reads. -/
def sampleLeg (airline arrival : String) : Value :=
  Value.obj
    [("airline", Value.str airline), ("airplane", Value.str "A320"),
     ("travel_class", Value.str "Economy"),
     ("departure_airport", Value.obj [("time", Value.str "2025-06-01 10:00")]),
     ("arrival_airport", Value.obj [("name", Value.str arrival)])]

/-- A group with the given legs. -/
def sampleGroup (legs : List Value) : Value :=
  Value.obj
    [("flights", Value.arr legs), ("price", Value.num 100), ("total_duration", Value.num 300)]

/-- A non-stop group. -/
def directGroup (airline : String) : Value := sampleGroup [sampleLeg airline "LAX"]

/-- A response whose first group has no legs. -/
def gapResponse : List (String × Value) :=
  [("best_flights", Value.arr [sampleGroup [], directGroup "AA"])]

/-- A response with one zero-leg group followed by five groups with a leg. -/
def sixGroupResponse : List (String × Value) :=
  [("best_flights", Value.arr [sampleGroup [], directGroup "AA", directGroup "BB"]),
   ("other_flights", Value.arr [directGroup "CC", directGroup "DD", directGroup "EE"])]

/-- A response whose only group has two legs, the first without an
`arrival_airport`. -/
def unnamedStopResponse : List (String × Value) :=
  [("best_flights",
      Value.arr [sampleGroup [Value.obj [("airline", Value.str "AA")], sampleLeg "AA" "LAX"]])]

/-- A response whose first group is a number, followed by a non-stop group. -/
def nonObjectGroupResponse : List (String × Value) :=
  [("best_flights", Value.arr [Value.num 1, directGroup "AA"])]

/-- A response whose first group has a leg that is a string, followed by a
non-stop group. -/
def nonObjectLegResponse : List (String × Value) :=
  [("best_flights", Value.arr [sampleGroup [Value.str "leg"], directGroup "AA"])]

/-- A response whose only group has one leg, an object without the `airline`
field. -/
def noAirlineResponse : List (String × Value) :=
  [("best_flights",
      Value.arr [sampleGroup
        [Value.obj [("airplane", Value.str "A320"), ("travel_class", Value.str "Economy")]]])]

/-- A response without `best_flights` and whose `other_flights` is not an
array. -/
def noFlightsResponse : List (String × Value) :=
  [("other_flights", Value.str "none")]

/-- A response with three best and four other groups, all with legs. -/
def sevenGroupResponse : List (String × Value) :=
  [("best_flights", Value.arr [directGroup "AA",
      sampleGroup [sampleLeg "BB" "ORD", sampleLeg "BB" "DEN", sampleLeg "BB" "LAX"],
      directGroup "CC"]),
   ("other_flights", Value.arr [directGroup "DD", directGroup "EE", directGroup "FF",
      directGroup "GG"])]

/-! ## The loop body and the loop -/

theorem step_skip_inv {lib : Lib} {dc ac dd : String} {i : Nat} {f : Value}
    (h : flightGroupStep lib dc ac dd i f = some Step.skip) : hasLegs f = false := by
  unfold flightGroupStep at h
  split at h
  · rename_i flightGroup
    split at h
    · rename_i hl
      simp [hasLegs, legsOf, hl]
    · simp only at h
      split at h <;> simp at h
    · simp at h
  · simp at h

theorem step_emit_inv {lib : Lib} {dc ac dd : String} {i : Nat} {f : Value}
    {line : String} {opt : FlightOption}
    (h : flightGroupStep lib dc ac dd i f = some (Step.emit line opt)) :
    ∃ flightGroup first more info,
      f = Value.obj flightGroup ∧ legsOf f = Value.obj first :: more ∧
      connectionInfoOf (Value.obj first :: more) = some info ∧
      opt = { ID := i + 1
              Airline := sprintV lib (index first "airline")
              Airplane := sprintV lib (index first "airplane")
              Price := index flightGroup "price"
              DepartureDate := dd
              Origin := dc
              Destination := ac
              Duration := durationOf flightGroup
              TravelClass := sprintV lib (index first "travel_class")
              IsNonstop := decide ((Value.obj first :: more).length = 1)
              ConnectionInfo := info } := by
  unfold flightGroupStep at h
  split at h
  · rename_i flightGroup
    split at h
    · simp at h
    · rename_i first more hl
      simp only at h
      split at h
      · simp at h
      · rename_i info hinfo
        simp only [Option.some.injEq, Step.emit.injEq] at h
        exact ⟨flightGroup, first, more, info, rfl, by simp [legsOf, hl], hinfo, h.2.symm⟩
    · simp at h
  · simp at h

theorem hasLegs_of_legsOf_cons {f x : Value} {xs : List Value} (h : legsOf f = x :: xs) :
    hasLegs f = true := by
  simp [hasLegs, h]

theorem rangeLoop_trace (lib : Lib) (dc ac dd : String) :
    ∀ (gs : List Value) (i : Nat) (acc out : List String × List FlightOption),
      rangeLoop lib dc ac dd i gs acc = some out →
      ∃ emitted : List (String × FlightOption),
        out = (acc.1 ++ emitted.map Prod.fst, acc.2 ++ emitted.map Prod.snd) ∧
        List.Forall₂
          (fun e p => flightGroupStep lib dc ac dd p.1 p.2 = some (Step.emit e.1 e.2))
          emitted (((gs.take (5 - i)).enumFrom i).filter (fun p => hasLegs p.2)) := by
  intro gs
  induction gs with
  | nil =>
    intro i acc out h
    simp only [rangeLoop, Option.some.injEq] at h
    exact ⟨[], by simp [h.symm], by simp⟩
  | cons f rest ih =>
    intro i acc out h
    unfold rangeLoop at h
    by_cases hi : i ≥ 5
    · simp only [hi, if_true, Option.some.injEq] at h
      have h0 : 5 - i = 0 := by omega
      exact ⟨[], by simp [h.symm], by simp [h0]⟩
    · simp only [hi, if_false] at h
      have hs : 5 - i = (5 - (i + 1)) + 1 := by omega
      rw [hs, List.take_succ_cons, List.enumFrom_cons, List.filter_cons]
      cases hstep : flightGroupStep lib dc ac dd i f with
      | none => simp [hstep] at h
      | some s =>
        cases s with
        | skip =>
          simp only [hstep] at h
          have hl := step_skip_inv hstep
          simp only [hl]
          exact ih (i + 1) acc out h
        | emit line opt =>
          simp only [hstep] at h
          obtain ⟨_, _, _, _, _, hlegs, _, _⟩ := step_emit_inv hstep
          have hl := hasLegs_of_legsOf_cons hlegs
          simp only [hl, if_true]
          obtain ⟨emitted, hout, hall⟩ := ih (i + 1) _ out h
          refine ⟨(line, opt) :: emitted, ?_, List.Forall₂.cons hstep hall⟩
          simp [hout]

theorem collectStops_eq : ∀ (legs : List Value) (stops out : List String),
    collectStops legs stops = some out → out = stops ++ legs.filterMap arrivalName := by
  intro legs
  induction legs with
  | nil => intro stops out h; simp [collectStops] at h; simp [h]
  | cons leg rest ih =>
    intro stops out h
    cases leg with
    | obj m =>
      simp only [collectStops] at h
      split at h
      · rename_i arr harr
        split at h
        · rename_i name hname
          have := ih _ _ h
          simp [this, arrivalName, harr, hname]
        · rename_i hname
          have := ih _ _ h
          rw [this]
          congr 1
          rw [List.filterMap_cons]
          simp only [arrivalName, harr]
      · rename_i harr
        have := ih _ _ h
        rw [this]
        congr 1
        rw [List.filterMap_cons]
        simp only [arrivalName]
    | null => simp [collectStops] at h
    | bool b => simp [collectStops] at h
    | num x => simp [collectStops] at h
    | str s => simp [collectStops] at h
    | arr xs => simp [collectStops] at h

theorem collectStops_total : ∀ (legs : List Value) (stops : List String),
    (∀ l ∈ legs, isObject l = true) → ∃ out, collectStops legs stops = some out := by
  intro legs
  induction legs with
  | nil => intro stops _; exact ⟨stops, rfl⟩
  | cons leg rest ih =>
    intro stops h
    have hrest : ∀ l ∈ rest, isObject l = true := fun l hl => h l (List.mem_cons_of_mem _ hl)
    cases leg with
    | obj m =>
      simp only [collectStops]
      split
      · split
        · exact ih _ hrest
        · exact ih _ hrest
      · exact ih _ hrest
    | null => exact absurd (h _ (List.mem_cons_self _ _)) (by simp [isObject])
    | bool b => exact absurd (h _ (List.mem_cons_self _ _)) (by simp [isObject])
    | num x => exact absurd (h _ (List.mem_cons_self _ _)) (by simp [isObject])
    | str s => exact absurd (h _ (List.mem_cons_self _ _)) (by simp [isObject])
    | arr xs => exact absurd (h _ (List.mem_cons_self _ _)) (by simp [isObject])

theorem flightGroupStep_total (lib : Lib) (dc ac dd : String) (i : Nat) (f : Value)
    (hwf : wellFormedGroup f = true) :
    ∃ s, flightGroupStep lib dc ac dd i f = some s := by
  cases f with
  | obj m =>
    simp only [wellFormedGroup, isObject, legsOf, Bool.true_and, List.all_eq_true] at hwf
    simp only [flightGroupStep]
    split
    · exact ⟨_, rfl⟩
    · rename_i first more hl
      have hc : ∃ info, connectionInfoOf (Value.obj first :: more) = some info := by
        unfold connectionInfoOf
        split
        · exact ⟨_, rfl⟩
        · have hobj : ∀ l ∈ (Value.obj first :: more).take
              ((Value.obj first :: more).length - 1), isObject l = true := by
            intro l hmem
            exact hwf l (hl ▸ List.mem_of_mem_take hmem)
          obtain ⟨out, hout⟩ := collectStops_total _ [] hobj
          rw [hout]
          exact ⟨_, rfl⟩
      obtain ⟨info, hinfo⟩ := hc
      rw [hinfo]
      exact ⟨_, rfl⟩
    · rename_i x more hne hl
      have hx : isObject x = true := hwf x (hl ▸ List.mem_cons_self _ _)
      cases x with
      | obj first => exact (hne first rfl).elim
      | null => simp [isObject] at hx
      | bool b => simp [isObject] at hx
      | num q => simp [isObject] at hx
      | str s => simp [isObject] at hx
      | arr xs => simp [isObject] at hx
  | null => simp [wellFormedGroup, isObject] at hwf
  | bool b => simp [wellFormedGroup, isObject] at hwf
  | num q => simp [wellFormedGroup, isObject] at hwf
  | str s => simp [wellFormedGroup, isObject] at hwf
  | arr xs => simp [wellFormedGroup, isObject] at hwf

theorem rangeLoop_total (lib : Lib) (dc ac dd : String) :
    ∀ (gs : List Value) (i : Nat) (acc : List String × List FlightOption),
      (∀ g ∈ gs, wellFormedGroup g = true) →
      ∃ out, rangeLoop lib dc ac dd i gs acc = some out := by
  intro gs
  induction gs with
  | nil => intro i acc _; exact ⟨acc, rfl⟩
  | cons f rest ih =>
    intro i acc hwf
    have hrest : ∀ g ∈ rest, wellFormedGroup g = true :=
      fun g hg => hwf g (List.mem_cons_of_mem _ hg)
    unfold rangeLoop
    by_cases hi : i ≥ 5
    · simp only [hi, if_true]; exact ⟨acc, rfl⟩
    · simp only [hi, if_false]
      obtain ⟨s, hs⟩ := flightGroupStep_total lib dc ac dd i f (hwf f (List.mem_cons_self _ _))
      rw [hs]
      cases s with
      | skip => exact ih _ _ hrest
      | emit line opt => exact ih _ _ hrest

/-- The reply in terms of the loop: the options and the lines after the first
are what the visited groups with legs emitted, in order. -/
theorem results_trace {lib : Lib} {dc ac dd : String} {serpData : List (String × Value)}
    {r : Reply} (h : SkyscannerWebhook.results lib dc ac dd serpData = some r) :
    ∃ (first : String) (emitted : List (String × FlightOption)),
      r.messageLines = first :: emitted.map Prod.fst ∧
      r.flightOptions = emitted.map Prod.snd ∧
      List.Forall₂
        (fun e p => flightGroupStep lib dc ac dd p.1 p.2 = some (Step.emit e.1 e.2))
        emitted ((((allFlights serpData).take 5).enum).filter (fun p => hasLegs p.2)) := by
  unfold SkyscannerWebhook.results at h
  simp only at h
  by_cases hempty : (allFlights serpData).length = 0
  · simp only [hempty, if_true, Option.some.injEq] at h
    have hnil : allFlights serpData = [] := List.length_eq_zero.mp hempty
    subst h
    exact ⟨_, [], rfl, rfl, by simp [hnil, List.enum]⟩
  · simp only [hempty, if_false] at h
    cases hloop : rangeLoop lib dc ac dd 0 (allFlights serpData)
        (["Found flights from " ++ dc ++ " to " ++ ac ++ " on " ++ dd ++ ":"], []) with
    | none => simp [hloop] at h
    | some out =>
      obtain ⟨emitted, hout, hall⟩ := rangeLoop_trace lib dc ac dd _ _ _ _ hloop
      simp only [hloop, Option.some.injEq] at h
      subst h
      subst hout
      exact ⟨_, emitted, rfl, by simp, by simpa [List.enum] using hall⟩

theorem results_total (lib : Lib) (dc ac dd : String) (serpData : List (String × Value))
    (hwf : ∀ g ∈ allFlights serpData, wellFormedGroup g = true) :
    ∃ r, SkyscannerWebhook.results lib dc ac dd serpData = some r := by
  unfold SkyscannerWebhook.results
  simp only
  by_cases hempty : (allFlights serpData).length = 0
  · simp only [hempty, if_true]; exact ⟨_, rfl⟩
  · simp only [hempty, if_false]
    obtain ⟨out, hout⟩ := rangeLoop_total lib dc ac dd (allFlights serpData) 0
      (["Found flights from " ++ dc ++ " to " ++ ac ++ " on " ++ dd ++ ":"], []) hwf
    rw [hout]
    exact ⟨_, rfl⟩

/-! ## List facts used below -/

theorem forall₂_map_eq {α β γ : Type} {R : α → β → Prop} {f : α → γ} {g : β → γ}
    (hR : ∀ a b, R a b → f a = g b) :
    ∀ {l₁ : List α} {l₂ : List β}, List.Forall₂ R l₁ l₂ → l₁.map f = l₂.map g := by
  intro l₁ l₂ h
  induction h with
  | nil => rfl
  | cons hab _ ih => simp [hR _ _ hab, ih]

theorem forall₂_exists_of_mem {α β : Type} {R : α → β → Prop} :
    ∀ {l₁ : List α} {l₂ : List β}, List.Forall₂ R l₁ l₂ → ∀ a ∈ l₁, ∃ b ∈ l₂, R a b := by
  intro l₁ l₂ h
  induction h with
  | nil => intro a ha; simp at ha
  | cons hab _ ih =>
    intro a ha
    rcases List.mem_cons.mp ha with rfl | ha
    · exact ⟨_, List.mem_cons_self _ _, hab⟩
    · obtain ⟨b, hb, hr⟩ := ih a ha
      exact ⟨b, List.mem_cons_of_mem _ hb, hr⟩

theorem map_snd_filter_enumFrom (p : Value → Bool) (l : List Value) (i : Nat) :
    ((l.enumFrom i).filter (fun q => p q.2)).map Prod.snd = l.filter p := by
  have h := List.filter_map (p := p) Prod.snd (l.enumFrom i)
  rw [List.enumFrom_map_snd] at h
  rw [h]
  rfl

theorem positions_contiguous : ∀ (l : List Value) (i : Nat),
    l.Pairwise (fun g g' => hasLegs g' = true → hasLegs g = true) →
    ((l.enumFrom i).filter (fun q => hasLegs q.2)).map Prod.fst
      = List.range' i (l.filter hasLegs).length := by
  intro l
  induction l with
  | nil => intro i _; rfl
  | cons g rest ih =>
    intro i hp
    rw [List.pairwise_cons] at hp
    have hrest := ih (i + 1) hp.2
    rw [List.enumFrom_cons, List.filter_cons, List.filter_cons]
    cases hg : hasLegs g with
    | true =>
      simp only [if_true, List.map_cons, List.length_cons, List.range'_succ, hrest]
    | false =>
      have hnone : rest.filter hasLegs = [] := by
        rw [List.filter_eq_nil_iff]
        intro a ha hleg
        have := hp.1 a ha hleg
        rw [hg] at this
        exact Bool.noConfusion this
      simp [hrest, hnone]

theorem emit_id {lib : Lib} {dc ac dd : String} {i : Nat} {f : Value}
    {line : String} {opt : FlightOption}
    (h : flightGroupStep lib dc ac dd i f = some (Step.emit line opt)) : opt.ID = i + 1 := by
  obtain ⟨_, _, _, _, _, _, _, hopt⟩ := step_emit_inv h
  rw [hopt]

/-! ## Ranking, cap and order of the options -/

/-- C1 (counterexample): on a response whose first group has no legs and whose
second has one, the only option produced carries ID 2, so the IDs are not
1, ..., k. -/
theorem ids_gap_counterexample :
    ∃ ids : List Nat, ids ≠ List.range' 1 ids.length ∧
      ∀ lib : Lib,
        (SkyscannerWebhook.results lib "JFK" "LAX" "2025-06-01" gapResponse).map
          (fun r => r.flightOptions.map (fun o => o.ID)) = some ids :=
  ⟨[2], by decide, fun _ => rfl⟩

/-- C1 (amended): the IDs of the produced options are the 1-based positions, in
the concatenated list, of the groups among its first five that have at least
one leg, in increasing order; they are exactly 1, 2, ..., k when, among the
first five groups, no zero-leg group comes before a group with legs. -/
theorem option_ids_are_positions (lib : Lib) (dc ac dd : String)
    (serpData : List (String × Value)) (r : Reply)
    (h : SkyscannerWebhook.results lib dc ac dd serpData = some r) :
    r.flightOptions.map (fun o => o.ID)
        = ((((allFlights serpData).take 5).enum).filter (fun p => hasLegs p.2)).map
            (fun p => p.1 + 1) ∧
      (((allFlights serpData).take 5).Pairwise
          (fun g g' => hasLegs g' = true → hasLegs g = true) →
        r.flightOptions.map (fun o => o.ID) = List.range' 1 r.flightOptions.length) := by
  obtain ⟨first, emitted, _, hopts, hall⟩ := results_trace h
  have hids : r.flightOptions.map (fun o => o.ID)
      = ((((allFlights serpData).take 5).enum).filter (fun p => hasLegs p.2)).map
          (fun p => p.1 + 1) := by
    rw [hopts, List.map_map]
    exact forall₂_map_eq (fun e p hr => emit_id hr) hall
  refine ⟨hids, fun hp => ?_⟩
  have hpos := positions_contiguous _ 0 hp
  have hlen : r.flightOptions.length = (((allFlights serpData).take 5).filter hasLegs).length := by
    have := congrArg List.length hids
    rw [List.length_map, List.length_map] at this
    rw [this, ← map_snd_filter_enumFrom hasLegs _ 0, List.length_map]
    rfl
  rw [hids, hlen]
  have hmap : (fun p : Nat × Value => p.1 + 1) = (fun n => n + 1) ∘ Prod.fst := rfl
  rw [hmap, ← List.map_map]
  have hpos' : List.map Prod.fst (List.filter (fun p => hasLegs p.2)
      ((allFlights serpData).take 5).enum)
      = List.range' 0 (((allFlights serpData).take 5).filter hasLegs).length := hpos
  rw [hpos']
  simp [List.range'_eq_map_range, List.map_map, Function.comp_def, Nat.add_comm]

/-- C1 (witness): the theorem applied to a response whose first group has no
legs (IDs 2 to 5) and to a response of seven groups with legs (IDs 1 to 5). -/
theorem option_ids_are_positions_witness :
    (∃ r, SkyscannerWebhook.results exampleLib "JFK" "LAX" "2025-06-01" sixGroupResponse
          = some r ∧
      r.flightOptions.map (fun o => o.ID) = [2, 3, 4, 5]) ∧
    (∃ r, SkyscannerWebhook.results exampleLib "JFK" "LAX" "2025-06-01" sevenGroupResponse
          = some r ∧
      r.flightOptions.map (fun o => o.ID) = List.range' 1 r.flightOptions.length) :=
  ⟨⟨_, rfl,
      (option_ids_are_positions exampleLib "JFK" "LAX" "2025-06-01" sixGroupResponse _ rfl).1.trans
        (by decide)⟩,
    ⟨_, rfl,
      (option_ids_are_positions exampleLib "JFK" "LAX" "2025-06-01" sevenGroupResponse _ rfl).2
        (by decide)⟩⟩

theorem results_count {lib : Lib} {dc ac dd : String} {serpData : List (String × Value)}
    {r : Reply} (h : SkyscannerWebhook.results lib dc ac dd serpData = some r) :
    r.flightOptions.length = (((allFlights serpData).take 5).filter hasLegs).length := by
  obtain ⟨_, emitted, _, hopts, hall⟩ := results_trace h
  rw [hopts, List.length_map, hall.length_eq,
    ← map_snd_filter_enumFrom hasLegs ((allFlights serpData).take 5) 0, List.length_map]
  rfl

/-- C3 (counterexample): with one zero-leg group followed by five groups that
have a leg, n = 5, yet four options are produced, not min(5, n) = 5. -/
theorem cap_counts_zero_leg_counterexample :
    ((allFlights sixGroupResponse).filter hasLegs).length = 5 ∧
      ∀ lib : Lib,
        (SkyscannerWebhook.results lib "JFK" "LAX" "2025-06-01" sixGroupResponse).map
          (fun r => r.flightOptions.length) = some 4 :=
  ⟨by decide, fun _ => rfl⟩

/-- C3 (amended): zero-leg groups among the first five are counted against the
cap.  For every provider response with well-formed groups the handler replies,
and the number of options equals the number of groups with at least one leg
among the first five groups of the concatenated list; this is at most
min(5, n), n being the number of groups with a leg in the whole list, and it
is min(5, n) when none of the first five groups has zero legs. -/
theorem option_count_first_five (lib : Lib) (dc ac dd : String)
    (serpData : List (String × Value))
    (hwf : ∀ g ∈ allFlights serpData, wellFormedGroup g = true) :
    ∃ r, SkyscannerWebhook.results lib dc ac dd serpData = some r ∧
      r.flightOptions.length = (((allFlights serpData).take 5).filter hasLegs).length ∧
      r.flightOptions.length ≤ min 5 ((allFlights serpData).filter hasLegs).length ∧
      ((∀ g ∈ (allFlights serpData).take 5, hasLegs g = true) →
        r.flightOptions.length = min 5 ((allFlights serpData).filter hasLegs).length) := by
  obtain ⟨r, hr⟩ := results_total lib dc ac dd serpData hwf
  have hcount := results_count hr
  have hpre : ((allFlights serpData).take 5).filter hasLegs
      <+: (allFlights serpData).filter hasLegs :=
    List.IsPrefix.filter hasLegs (List.take_prefix 5 (allFlights serpData))
  have h5 : (((allFlights serpData).take 5).filter hasLegs).length ≤ 5 :=
    (List.length_filter_le _ _).trans (by simp)
  have hle : r.flightOptions.length ≤ min 5 ((allFlights serpData).filter hasLegs).length := by
    rw [hcount]
    exact le_min h5 hpre.length_le
  refine ⟨r, hr, hcount, hle, fun hall => le_antisymm hle ?_⟩
  rw [hcount, List.filter_eq_self.mpr hall, List.length_take]
  exact min_le_min_left 5 (List.length_filter_le _ _)

/-- C3 (witness): the theorem applied to the response with one zero-leg group
followed by five groups with a leg. -/
theorem option_count_first_five_witness :
    ∃ r, SkyscannerWebhook.results exampleLib "JFK" "LAX" "2025-06-01" sixGroupResponse = some r ∧
      r.flightOptions.length = (((allFlights sixGroupResponse).take 5).filter hasLegs).length ∧
      r.flightOptions.length ≤ min 5 ((allFlights sixGroupResponse).filter hasLegs).length ∧
      ((∀ g ∈ (allFlights sixGroupResponse).take 5, hasLegs g = true) →
        r.flightOptions.length = min 5 ((allFlights sixGroupResponse).filter hasLegs).length) :=
  option_count_first_five exampleLib "JFK" "LAX" "2025-06-01" sixGroupResponse (by decide)

/-- C5: whenever the handler replies, the Flight Option list has at most 5
entries, however many groups `best_flights` and `other_flights` contain. -/
theorem at_most_five_options (lib : Lib) (dc ac dd : String)
    (serpData : List (String × Value)) (r : Reply)
    (h : SkyscannerWebhook.results lib dc ac dd serpData = some r) :
    r.flightOptions.length ≤ 5 := by
  rw [results_count h]
  exact (List.length_filter_le _ _).trans (by simp)

/-- C5 (witness): seven groups with legs give a reply with five options. -/
theorem at_most_five_options_witness :
    ∃ r, SkyscannerWebhook.results exampleLib "JFK" "LAX" "2025-06-01" sevenGroupResponse
          = some r ∧ r.flightOptions.length = 5 ∧ r.flightOptions.length ≤ 5 :=
  ⟨_, rfl, rfl,
    at_most_five_options exampleLib "JFK" "LAX" "2025-06-01" sevenGroupResponse _ rfl⟩

theorem forall₂_getElem? {α β : Type} {R : α → β → Prop} :
    ∀ {l₁ : List α} {l₂ : List β}, List.Forall₂ R l₁ l₂ →
      ∀ (j : Nat) (a : α), l₁[j]? = some a → ∃ b, l₂[j]? = some b ∧ R a b := by
  intro l₁ l₂ h
  induction h with
  | nil => intro j a ha; simp at ha
  | cons hab _ ih =>
    intro j a ha
    cases j with
    | zero =>
      simp only [List.getElem?_cons_zero, Option.some.injEq] at ha
      subst ha
      exact ⟨_, by simp, hab⟩
    | succ j =>
      simp only [List.getElem?_cons_succ] at ha
      obtain ⟨b, hb, hr⟩ := ih j a ha
      exact ⟨b, by simpa using hb, hr⟩

theorem getElem?_of_initial_segment {α : Type} {l₁ l₂ : List α} (hp : l₁ <+: l₂) {j : Nat} {a : α}
    (h : l₁[j]? = some a) : l₂[j]? = some a := by
  obtain ⟨t, rfl⟩ := hp
  obtain ⟨hj, _⟩ := List.getElem?_eq_some.mp h
  rw [List.getElem?_append_left hj]
  exact h

/-- Every option of a reply was emitted by the loop body at some index below 5,
on the group the concatenated list holds at that index. -/
theorem option_source {lib : Lib} {dc ac dd : String} {serpData : List (String × Value)}
    {r : Reply} (h : SkyscannerWebhook.results lib dc ac dd serpData = some r)
    {opt : FlightOption} (hopt : opt ∈ r.flightOptions) :
    ∃ (i : Nat) (g : Value) (line : String), i < 5 ∧ (allFlights serpData)[i]? = some g ∧
      flightGroupStep lib dc ac dd i g = some (Step.emit line opt) := by
  obtain ⟨_, emitted, _, hopts, hall⟩ := results_trace h
  rw [hopts, List.mem_map] at hopt
  obtain ⟨e, he, rfl⟩ := hopt
  obtain ⟨p, hp, hr⟩ := forall₂_exists_of_mem hall e he
  have hmem := (List.mem_filter.mp hp).1
  have hget := List.mem_enum_iff_getElem?.mp hmem
  rw [List.getElem?_take] at hget
  by_cases hlt : p.1 < 5
  · rw [if_pos hlt] at hget
    exact ⟨p.1, p.2, e.1, hlt, hget, hr⟩
  · rw [if_neg hlt] at hget
    exact Option.noConfusion hget

/-- C4: for every provider response with well-formed groups the handler
replies, and the j-th option is the projection of the j-th group having at
least one leg in the concatenation of `best_flights` followed by
`other_flights`: airline, airplane and travel class are the rendering of the
fields of that group's first leg, and the price is the group's. -/
theorem options_in_best_then_other_order (lib : Lib) (dc ac dd : String)
    (serpData : List (String × Value))
    (hwf : ∀ g ∈ allFlights serpData, wellFormedGroup g = true) :
    ∃ r, SkyscannerWebhook.results lib dc ac dd serpData = some r ∧
      ∀ (j : Nat) (opt : FlightOption), r.flightOptions[j]? = some opt →
        ∃ g leg,
          ((asArray (index serpData "best_flights") ++
              asArray (index serpData "other_flights")).filter hasLegs)[j]? = some g ∧
          (legsOf g)[0]? = some leg ∧
          opt.Airline = sprintV lib (field leg "airline") ∧
          opt.Airplane = sprintV lib (field leg "airplane") ∧
          opt.TravelClass = sprintV lib (field leg "travel_class") ∧
          opt.Price = field g "price" := by
  obtain ⟨r, hr⟩ := results_total lib dc ac dd serpData hwf
  refine ⟨r, hr, fun j opt hj => ?_⟩
  obtain ⟨_, emitted, _, hopts, hall⟩ := results_trace hr
  rw [hopts, List.getElem?_map] at hj
  cases he : emitted[j]? with
  | none => rw [he] at hj; exact Option.noConfusion hj
  | some e =>
    rw [he] at hj
    simp only [Option.map_some', Option.some.injEq] at hj
    subst hj
    obtain ⟨p, hp, hstep⟩ := forall₂_getElem? hall j e he
    have hsel : (((allFlights serpData).take 5).filter hasLegs)[j]? = some p.2 := by
      rw [← map_snd_filter_enumFrom hasLegs ((allFlights serpData).take 5) 0,
        List.getElem?_map]
      have hp' : (List.filter (fun q => hasLegs q.2)
          (List.enumFrom 0 ((allFlights serpData).take 5)))[j]? = some p := hp
      rw [hp']
      rfl
    have hall' : ((allFlights serpData).filter hasLegs)[j]? = some p.2 :=
      getElem?_of_initial_segment
        (List.IsPrefix.filter hasLegs (List.take_prefix 5 (allFlights serpData))) hsel
    obtain ⟨flightGroup, first, more, info, hg, hlegs, _, hopt⟩ := step_emit_inv hstep
    refine ⟨p.2, Value.obj first, hall', by rw [hlegs]; simp, ?_, ?_, ?_, ?_⟩
    · rw [hopt]; rfl
    · rw [hopt]; rfl
    · rw [hopt]; rfl
    · rw [hopt, hg]; rfl

/-- C4 (witness): the theorem applied to three best and four other groups. -/
theorem options_in_best_then_other_order_witness :
    ∃ r, SkyscannerWebhook.results exampleLib "JFK" "LAX" "2025-06-01" sevenGroupResponse
          = some r ∧
      r.flightOptions.map (fun o => o.Airline) = ["AA", "BB", "CC", "DD", "EE"] ∧
      ∀ (j : Nat) (opt : FlightOption), r.flightOptions[j]? = some opt →
        ∃ g leg,
          ((asArray (index sevenGroupResponse "best_flights") ++
              asArray (index sevenGroupResponse "other_flights")).filter hasLegs)[j]? = some g ∧
          (legsOf g)[0]? = some leg ∧
          opt.Airline = sprintV exampleLib (field leg "airline") ∧
          opt.Airplane = sprintV exampleLib (field leg "airplane") ∧
          opt.TravelClass = sprintV exampleLib (field leg "travel_class") ∧
          opt.Price = field g "price" := by
  obtain ⟨r, hr, hall⟩ :=
    options_in_best_then_other_order exampleLib "JFK" "LAX" "2025-06-01" sevenGroupResponse
      (by decide)
  have hr' : SkyscannerWebhook.results exampleLib "JFK" "LAX" "2025-06-01" sevenGroupResponse
      = some r := hr
  refine ⟨r, hr, ?_, hall⟩
  have hval : SkyscannerWebhook.results exampleLib "JFK" "LAX" "2025-06-01" sevenGroupResponse
      = some (Option.get
          (SkyscannerWebhook.results exampleLib "JFK" "LAX" "2025-06-01" sevenGroupResponse)
          rfl) := by simp
  rw [hval] at hr'
  rw [← Option.some.inj hr']
  rfl

/-! ## Non-stop flag and connection info -/

theorem connectionInfoOf_eq {legs : List Value} {info : Option String}
    (h : connectionInfoOf legs = some info) :
    (legs.length = 1 → info = none) ∧
      (legs.length ≠ 1 →
        info = some (sprintD (legs.dropLast.filterMap arrivalName).length ++ " stop(s): " ++
          ", ".intercalate (legs.dropLast.filterMap arrivalName))) := by
  unfold connectionInfoOf at h
  by_cases h1 : legs.length = 1
  · simp only [h1, if_true, Option.some.injEq] at h
    exact ⟨fun _ => h.symm, fun hne => absurd h1 hne⟩
  · simp only [h1, if_false] at h
    refine ⟨fun he => absurd he h1, fun _ => ?_⟩
    cases hc : collectStops (legs.take (legs.length - 1)) [] with
    | none => simp [hc] at h
    | some stops =>
      simp only [hc, Option.some.injEq] at h
      have hs := collectStops_eq _ _ _ hc
      rw [List.nil_append, ← List.dropLast_eq_take] at hs
      rw [← h, hs]

theorem emit_connection {lib : Lib} {dc ac dd : String} {i : Nat} {g : Value}
    {line : String} {opt : FlightOption}
    (h : flightGroupStep lib dc ac dd i g = some (Step.emit line opt)) :
    1 ≤ (legsOf g).length ∧ opt.IsNonstop = decide ((legsOf g).length = 1) ∧
      connectionInfoOf (legsOf g) = some opt.ConnectionInfo := by
  obtain ⟨_, first, more, info, _, hlegs, hinfo, hopt⟩ := step_emit_inv h
  rw [hlegs, hopt]
  exact ⟨by simp, rfl, hinfo⟩

theorem length_filterMap_of_isSome {α β : Type} (f : α → Option β) :
    ∀ (l : List α), (∀ x ∈ l, (f x).isSome = true) → (l.filterMap f).length = l.length := by
  intro l
  induction l with
  | nil => intro _; rfl
  | cons x xs ih =>
    intro h
    have hx := h x (List.mem_cons_self _ _)
    obtain ⟨y, hy⟩ := Option.isSome_iff_exists.mp hx
    rw [List.filterMap_cons, hy]
    simp [ih (fun z hz => h z (List.mem_cons_of_mem _ hz))]

/-- C6 (counterexample): a group of two legs whose first leg carries no
`arrival_airport` yields an option whose connection info reports 0 stops, not
the number of legs minus one. -/
theorem stop_count_counterexample :
    (allFlights unnamedStopResponse).map (fun g => (legsOf g).length - 1) = [1] ∧
      ∀ lib : Lib,
        (SkyscannerWebhook.results lib "JFK" "LAX" "2025-06-01" unnamedStopResponse).map
          (fun r => r.flightOptions.map (fun o => o.ConnectionInfo))
          = some [some "0 stop(s): "] :=
  ⟨by decide, fun _ => rfl⟩

/-- C6 (amended): every option of a reply comes from a group of the
concatenated list, and when that group has n >= 2 legs the connection info is
the string formed by the number of names collected, the text " stop(s): ", and
the arrival-airport names of the legs other than the last that carry one (an
`arrival_airport` object with a string `name`), joined by ", "; the reported
count equals n - 1 when every leg except the last carries such a name. -/
theorem connection_info_lists_named_stops (lib : Lib) (dc ac dd : String)
    (serpData : List (String × Value)) (r : Reply) (opt : FlightOption)
    (h : SkyscannerWebhook.results lib dc ac dd serpData = some r)
    (hopt : opt ∈ r.flightOptions) :
    ∃ (i : Nat) (g : Value) (line : String),
      (allFlights serpData)[i]? = some g ∧
      flightGroupStep lib dc ac dd i g = some (Step.emit line opt) ∧
      (2 ≤ (legsOf g).length →
        opt.ConnectionInfo
            = some (sprintD ((legsOf g).dropLast.filterMap arrivalName).length ++ " stop(s): " ++
                ", ".intercalate ((legsOf g).dropLast.filterMap arrivalName)) ∧
          ((∀ l ∈ (legsOf g).dropLast, (arrivalName l).isSome = true) →
            ((legsOf g).dropLast.filterMap arrivalName).length = (legsOf g).length - 1)) := by
  obtain ⟨i, g, line, _, hget, hstep⟩ := option_source h hopt
  obtain ⟨_, _, hinfo⟩ := emit_connection hstep
  refine ⟨i, g, line, hget, hstep, fun h2 => ⟨?_, fun hnamed => ?_⟩⟩
  · exact (connectionInfoOf_eq hinfo).2 (by omega)
  · rw [length_filterMap_of_isSome arrivalName _ hnamed, List.length_dropLast]

/-- C6 (witness): the theorem applied to the three-leg group of a sample
response, whose connection info is "2 stop(s): ORD, DEN". -/
theorem connection_info_lists_named_stops_witness :
    ∃ r opt, SkyscannerWebhook.results exampleLib "JFK" "LAX" "2025-06-01" sevenGroupResponse
          = some r ∧ opt ∈ r.flightOptions ∧
      opt.ConnectionInfo = some "2 stop(s): ORD, DEN" ∧
      ∃ (i : Nat) (g : Value) (line : String),
        (allFlights sevenGroupResponse)[i]? = some g ∧
        flightGroupStep exampleLib "JFK" "LAX" "2025-06-01" i g = some (Step.emit line opt) ∧
        (2 ≤ (legsOf g).length →
          opt.ConnectionInfo
              = some (sprintD ((legsOf g).dropLast.filterMap arrivalName).length ++
                  " stop(s): " ++
                  ", ".intercalate ((legsOf g).dropLast.filterMap arrivalName)) ∧
            ((∀ l ∈ (legsOf g).dropLast, (arrivalName l).isSome = true) →
              ((legsOf g).dropLast.filterMap arrivalName).length = (legsOf g).length - 1)) :=
  ⟨_, _, rfl, List.mem_cons_of_mem _ (List.mem_cons_self _ _), rfl,
    connection_info_lists_named_stops exampleLib "JFK" "LAX" "2025-06-01" sevenGroupResponse
      _ _ rfl (List.mem_cons_of_mem _ (List.mem_cons_self _ _))⟩

/-- C7: every option of a reply comes from a group with n >= 1 legs of the
concatenated list; its `is_nonstop` is true if and only if n = 1, and its
connection info is absent (nil, not an empty string) if and only if
`is_nonstop` is true. -/
theorem nonstop_iff_single_leg (lib : Lib) (dc ac dd : String)
    (serpData : List (String × Value)) (r : Reply) (opt : FlightOption)
    (h : SkyscannerWebhook.results lib dc ac dd serpData = some r)
    (hopt : opt ∈ r.flightOptions) :
    ∃ (i : Nat) (g : Value) (line : String),
      (allFlights serpData)[i]? = some g ∧
      flightGroupStep lib dc ac dd i g = some (Step.emit line opt) ∧
      1 ≤ (legsOf g).length ∧
      (opt.IsNonstop = true ↔ (legsOf g).length = 1) ∧
      (opt.ConnectionInfo = none ↔ opt.IsNonstop = true) := by
  obtain ⟨i, g, line, _, hget, hstep⟩ := option_source h hopt
  obtain ⟨hpos, hnon, hinfo⟩ := emit_connection hstep
  have hcases := connectionInfoOf_eq hinfo
  have hiff : opt.IsNonstop = true ↔ (legsOf g).length = 1 := by
    rw [hnon]; exact decide_eq_true_iff
  refine ⟨i, g, line, hget, hstep, hpos, hiff, ?_⟩
  rw [hiff]
  constructor
  · intro hnone
    by_contra hne
    rw [hcases.2 hne] at hnone
    exact Option.noConfusion hnone
  · exact hcases.1

/-- C7 (witness): the theorem applied to the first option of a sample
response, a non-stop flight. -/
theorem nonstop_iff_single_leg_witness :
    ∃ r opt, SkyscannerWebhook.results exampleLib "JFK" "LAX" "2025-06-01" sevenGroupResponse
          = some r ∧ opt ∈ r.flightOptions ∧
      opt.IsNonstop = true ∧ opt.ConnectionInfo = none ∧
      ∃ (i : Nat) (g : Value) (line : String),
        (allFlights sevenGroupResponse)[i]? = some g ∧
        flightGroupStep exampleLib "JFK" "LAX" "2025-06-01" i g = some (Step.emit line opt) ∧
        1 ≤ (legsOf g).length ∧
        (opt.IsNonstop = true ↔ (legsOf g).length = 1) ∧
        (opt.ConnectionInfo = none ↔ opt.IsNonstop = true) :=
  ⟨_, _, rfl, List.mem_cons_self _ _, rfl, rfl,
    nonstop_iff_single_leg exampleLib "JFK" "LAX" "2025-06-01" sevenGroupResponse
      _ _ rfl (List.mem_cons_self _ _)⟩

/-! ## Malformed and missing data -/

/-- C2 (failing input): a group that is not an object, or a first leg that is
not an object, makes the handler panic on an unchecked type assertion: no
reply is produced, although a well-formed group follows. -/
theorem malformed_group_panics :
    ∀ lib : Lib,
      SkyscannerWebhook.results lib "JFK" "LAX" "2025-06-01" nonObjectGroupResponse = none ∧
      SkyscannerWebhook.results lib "JFK" "LAX" "2025-06-01" nonObjectLegResponse = none :=
  fun _ => ⟨rfl, rfl⟩

/-- C8 (failing input): for a group whose first leg is an object lacking the
`airline` field, the option's airline is the text "<nil>", not the empty
string; airplane and travel class are as given. -/
theorem missing_airline_renders_nil :
    ∀ lib : Lib,
      (SkyscannerWebhook.results lib "JFK" "LAX" "2025-06-01" noAirlineResponse).map
        (fun r => r.flightOptions.map (fun o => (o.Airline, o.Airplane, o.TravelClass)))
        = some [("<nil>", "A320", "Economy")] :=
  fun _ => rfl

/-! ## Empty result -/

/-- C9: if the concatenation of `best_flights` and `other_flights` is empty,
the reply has exactly one message line, saying that no flights were found for
the resolved origin, destination and departure date, and no options. -/
theorem no_flights_reply (lib : Lib) (dc ac dd : String) (serpData : List (String × Value))
    (h : asArray (index serpData "best_flights") ++ asArray (index serpData "other_flights")
          = []) :
    SkyscannerWebhook.results lib dc ac dd serpData
      = some { messageLines := ["No flights found from " ++ dc ++ " to " ++ ac ++ " on " ++
                                  dd ++ "."]
               flightOptions := []
               origin := dc
               destination := ac } := by
  have hall : allFlights serpData = [] := h
  simp [SkyscannerWebhook.results, hall]

/-- C9 (witness): the theorem applied to a response without `best_flights`
whose `other_flights` is a string. -/
theorem no_flights_reply_witness :
    SkyscannerWebhook.results exampleLib "JFK" "LAX" "2025-06-01" noFlightsResponse
      = some { messageLines := ["No flights found from JFK to LAX on 2025-06-01."]
               flightOptions := []
               origin := "JFK"
               destination := "LAX" } :=
  no_flights_reply exampleLib "JFK" "LAX" "2025-06-01" noFlightsResponse rfl

/-! ## City codes -/

/-- C10 (failing input): on the string "Zürich" the code is cut after three
bytes, that is after two characters, so the result has two characters and is
not the first three characters uppercased. -/
theorem city_code_cuts_bytes :
    ∀ lib : Lib,
      extractCityCode lib (Value.str "Zürich") = String.mk ['Z', lib.upperCase 'ü'] ∧
      (extractCityCode lib (Value.str "Zürich")).length = 2 :=
  fun _ => ⟨rfl, rfl⟩

/-- The examples of the specification: "Tokyo", an object with city "paris",
and a number. -/
theorem extractCityCode_examples (lib : Lib) :
    extractCityCode lib (Value.str "Tokyo") = "TOK" ∧
    extractCityCode lib (Value.obj [("city", Value.str "paris")]) = "PAR" ∧
    extractCityCode lib (Value.num 7) = "UNK" :=
  ⟨rfl, rfl, rfl⟩

theorem byteLen_ascii : ∀ (l : List Char), (∀ c ∈ l, c.toNat < 0x80) → byteLen l = l.length := by
  intro l
  induction l with
  | nil => intro _; rfl
  | cons c cs ih =>
    intro h
    have hc := h c (List.mem_cons_self _ _)
    have hcs := ih (fun d hd => h d (List.mem_cons_of_mem _ hd))
    simp only [byteLen, List.map_cons, List.sum_cons, List.length_cons] at hcs ⊢
    rw [hcs]
    simp [runeLen, hc, Nat.add_comm]

theorem sliceRunes_ascii : ∀ (n : Nat) (l : List Char), (∀ c ∈ l, c.toNat < 0x80) →
    sliceRunes n l = l.take n := by
  intro n
  induction n using Nat.strong_induction_on with
  | _ n ih =>
    intro l h
    cases n with
    | zero => simp [sliceRunes]
    | succ n =>
      cases l with
      | nil => simp [sliceRunes]
      | cons c cs =>
        have hc := h c (List.mem_cons_self _ _)
        have hlen : runeLen c = 1 := by simp [runeLen, hc]
        simp only [sliceRunes, hlen, List.take_succ_cons]
        rw [if_pos (by omega), Nat.add_sub_cancel]
        rw [ih n (Nat.lt_succ_self n) cs (fun d hd => h d (List.mem_cons_of_mem _ hd))]

/-- On a string of ASCII characters bytes and characters coincide: with at
least three characters the code is the first three characters uppercased, and
with fewer it is "UNK". -/
theorem extractCityCode_ascii (lib : Lib) (s : String) (h : ∀ c ∈ s.data, c.toNat < 0x80) :
    extractCityCode lib (Value.str s)
      = if 3 ≤ s.data.length then String.mk ((s.data.take 3).map (toUpperRune lib))
        else "UNK" := by
  simp only [extractCityCode, upperPrefix3, byteLen_ascii s.data h, sliceRunes_ascii 3 s.data h,
    ge_iff_le]

/-! ## Digits -/

theorem isDigit_digitChar (k : Nat) : isDigit (digitChar k) = true := by
  unfold digitChar
  split <;> decide

theorem digitVal_digitChar {k : Nat} (h : k < 10) : digitVal (digitChar k) = k := by
  interval_cases k <;> rfl

theorem digitChar_digitVal {c : Char} (h : isDigit c = true) : digitChar (digitVal c) = c := by
  have hc := Char.ofNat_toNat c
  simp only [isDigit, Bool.and_eq_true, decide_eq_true_eq] at h
  unfold digitVal
  generalize c.toNat = n at hc h
  subst hc
  obtain ⟨h1, h2⟩ := h
  interval_cases n <;> rfl

theorem digitVal_lt {c : Char} (h : isDigit c = true) : digitVal c < 10 := by
  simp only [isDigit, Bool.and_eq_true, decide_eq_true_eq] at h
  unfold digitVal
  omega

theorem ne_dash_of_isDigit {c : Char} (h : isDigit c = true) : c ≠ '-' := by
  intro hc
  subst hc
  exact absurd h (by decide)

theorem ne_plus_of_isDigit {c : Char} (h : isDigit c = true) : c ≠ '+' := by
  intro hc
  subst hc
  exact absurd h (by decide)

theorem digitsValue_append_singleton (l : List Char) (c : Char) :
    digitsValue (l ++ [c]) = 10 * digitsValue l + digitVal c := by
  simp [digitsValue, List.foldl_append]

theorem fixedDigits_isDigit : ∀ (w n : Nat), ∀ c ∈ fixedDigits w n, isDigit c = true := by
  intro w
  induction w with
  | zero => intro n c hc; simp [fixedDigits] at hc
  | succ w ih =>
    intro n c hc
    simp only [fixedDigits, List.mem_append, List.mem_singleton] at hc
    rcases hc with hc | rfl
    · exact ih _ c hc
    · exact isDigit_digitChar _

theorem digitsValue_fixedDigits : ∀ (w n : Nat), digitsValue (fixedDigits w n) = n % 10 ^ w := by
  intro w
  induction w with
  | zero => intro n; simp [fixedDigits, digitsValue, Nat.mod_one]
  | succ w ih =>
    intro n
    rw [fixedDigits, digitsValue_append_singleton, ih, digitVal_digitChar (Nat.mod_lt _ (by decide)),
      pow_succ, Nat.mul_comm (10 ^ w) 10, Nat.mod_mul]
    omega

/-- The digits `decimalAux` puts in front of the accumulator: at least one, all
decimal digits, denoting the number. -/
theorem decimalAux_spec : ∀ (fuel n : Nat) (acc : List Char), n < fuel →
    ∃ front, decimalAux fuel n acc = front ++ acc ∧ front ≠ [] ∧
      (∀ c ∈ front, isDigit c = true) ∧ digitsValue front = n := by
  intro fuel
  induction fuel with
  | zero => intro n acc h; omega
  | succ fuel ih =>
    intro n acc h
    unfold decimalAux
    by_cases h10 : n < 10
    · rw [if_pos h10]
      refine ⟨[digitChar n], rfl, by simp, ?_, ?_⟩
      · intro c hc
        rw [List.mem_singleton] at hc
        subst hc
        exact isDigit_digitChar n
      · simp [digitsValue, digitVal_digitChar h10]
    · rw [if_neg h10]
      obtain ⟨front, hfront, hne, hdig, hval⟩ :=
        ih (n / 10) (digitChar (n % 10) :: acc) (by omega)
      refine ⟨front ++ [digitChar (n % 10)], by simp [hfront], by simp, ?_, ?_⟩
      · intro c hc
        rcases List.mem_append.mp hc with hc | hc
        · exact hdig c hc
        · rw [List.mem_singleton] at hc
          subst hc
          exact isDigit_digitChar _
      · rw [digitsValue_append_singleton, hval, digitVal_digitChar (Nat.mod_lt _ (by decide))]
        omega

theorem decimal_spec (n : Nat) :
    decimal n ≠ [] ∧ (∀ c ∈ decimal n, isDigit c = true) ∧ digitsValue (decimal n) = n := by
  obtain ⟨front, hfront, hne, hdig, hval⟩ := decimalAux_spec (n + 1) n [] (Nat.lt_succ_self n)
  rw [List.append_nil] at hfront
  unfold decimal
  rw [hfront]
  exact ⟨hne, hdig, hval⟩

theorem appendInt_isDigit (w n : Nat) : ∀ c ∈ appendInt w n, isDigit c = true := by
  unfold appendInt
  split
  · exact fixedDigits_isDigit w n
  · exact (decimal_spec n).2.1

theorem digitsValue_appendInt (w n : Nat) : digitsValue (appendInt w n) = n := by
  unfold appendInt
  split
  · rename_i h
    rw [digitsValue_fixedDigits, Nat.mod_eq_of_lt h]
  · exact (decimal_spec n).2.2

/-! ## Parsing and formatting dates -/

theorem fixedDigits_four (n : Nat) :
    fixedDigits 4 n = [digitChar (n / 10 / 10 / 10 % 10), digitChar (n / 10 / 10 % 10),
      digitChar (n / 10 % 10), digitChar (n % 10)] := by
  simp [fixedDigits]

theorem fixedDigits_two (n : Nat) :
    fixedDigits 2 n = [digitChar (n / 10 % 10), digitChar (n % 10)] := by
  simp [fixedDigits]

theorem daysIn_le (month year : Nat) : daysIn month year ≤ 31 := by
  unfold daysIn
  split
  · split <;> omega
  · split <;> omega

theorem daysIn_pos (month year : Nat) : 28 ≤ daysIn month year := by
  unfold daysIn
  split
  · split <;> omega
  · split <;> omega

theorem valid_iff (d : Date) :
    d.valid = true ↔ 1 ≤ d.month ∧ d.month ≤ 12 ∧ 1 ≤ d.day ∧ d.day ≤ daysIn d.month d.year := by
  simp [Date.valid, and_assoc]

/-- The text of a date with a four-digit year: ten characters. -/
theorem formatDate_data {d : Date} (hv : d.valid = true) (hy : d.year ≤ 9999) :
    (formatDate d).data
      = [digitChar (d.year / 10 / 10 / 10 % 10), digitChar (d.year / 10 / 10 % 10),
          digitChar (d.year / 10 % 10), digitChar (d.year % 10), '-',
          digitChar (d.month / 10 % 10), digitChar (d.month % 10), '-',
          digitChar (d.day / 10 % 10), digitChar (d.day % 10)] := by
  obtain ⟨_, hm, _, hd⟩ := (valid_iff d).mp hv
  have hd31 := daysIn_le d.month d.year
  have h4 : d.year < 10 ^ 4 := by norm_num; omega
  have h2m : d.month < 10 ^ 2 := by norm_num; omega
  have h2d : d.day < 10 ^ 2 := by norm_num; omega
  simp only [formatDate, appendInt, if_pos h4, if_pos h2m, if_pos h2d, fixedDigits_four,
    fixedDigits_two]
  rfl

/-- Parsing the text of a date with a four-digit year gives the date back. -/
theorem timeParse_formatDate {d : Date} (hv : d.valid = true) (hy : d.year ≤ 9999) :
    timeParse (formatDate d) = some d := by
  have hdata := formatDate_data hv hy
  obtain ⟨hm1, hm, hd1, hd⟩ := (valid_iff d).mp hv
  have hd31 := daysIn_le d.month d.year
  unfold timeParse
  rw [hdata]
  have hmod : ∀ k : Nat, k % 10 < 10 := fun k => Nat.mod_lt _ (by decide)
  have hyear : digitsValue [digitChar (d.year / 10 / 10 / 10 % 10),
      digitChar (d.year / 10 / 10 % 10), digitChar (d.year / 10 % 10), digitChar (d.year % 10)]
      = d.year := by
    simp only [digitsValue, List.foldl, digitVal_digitChar (hmod _)]
    omega
  have hmonth : digitsValue [digitChar (d.month / 10 % 10), digitChar (d.month % 10)]
      = d.month := by
    simp only [digitsValue, List.foldl, digitVal_digitChar (hmod _)]
    omega
  have hday : digitsValue [digitChar (d.day / 10 % 10), digitChar (d.day % 10)] = d.day := by
    simp only [digitsValue, List.foldl, digitVal_digitChar (hmod _)]
    omega
  simp only [isDigit_digitChar, Bool.and_self, decide_True, Bool.and_true, if_true, hyear,
    hmonth, hday]
  rw [if_pos ⟨hm1, hm, hd1, hd⟩]

/-- A string that parses is the text of the date it denotes, a date of the
calendar with a four-digit year. -/
theorem timeParse_sound {s : String} {d : Date} (h : timeParse s = some d) :
    d.valid = true ∧ d.year ≤ 9999 ∧ s = formatDate d := by
  unfold timeParse at h
  split at h
  · rename_i y1 y2 y3 y4 s1 m1 m2 s2 d1 d2 hs
    split at h
    · rename_i hc
      simp only [Bool.and_eq_true, decide_eq_true_eq] at hc
      obtain ⟨⟨⟨⟨⟨⟨⟨⟨⟨hy1, hy2⟩, hy3⟩, hy4⟩, hs1⟩, hm1⟩, hm2⟩, hs2⟩, hd1⟩, hd2⟩ := hc
      subst hs1
      subst hs2
      simp only at h
      split at h
      · rename_i hr
        simp only [Option.some.injEq] at h
        have e1 := digitVal_lt hy1
        have e2 := digitVal_lt hy2
        have e3 := digitVal_lt hy3
        have e4 := digitVal_lt hy4
        have e5 := digitVal_lt hm1
        have e6 := digitVal_lt hm2
        have e7 := digitVal_lt hd1
        have e8 := digitVal_lt hd2
        have hyear : d.year = 1000 * digitVal y1 + 100 * digitVal y2 + 10 * digitVal y3
            + digitVal y4 := by
          rw [← h]; simp only [digitsValue, List.foldl]; omega
        have hmonth : d.month = 10 * digitVal m1 + digitVal m2 := by
          rw [← h]; simp only [digitsValue, List.foldl]; omega
        have hday : d.day = 10 * digitVal d1 + digitVal d2 := by
          rw [← h]; simp only [digitsValue, List.foldl]; omega
        have hv : d.valid = true := by
          rw [valid_iff, ← h]; exact hr
        have hy : d.year ≤ 9999 := by omega
        refine ⟨hv, hy, ?_⟩
        have hdata := formatDate_data hv hy
        have k1 : d.year / 10 / 10 / 10 % 10 = digitVal y1 := by omega
        have k2 : d.year / 10 / 10 % 10 = digitVal y2 := by omega
        have k3 : d.year / 10 % 10 = digitVal y3 := by omega
        have k4 : d.year % 10 = digitVal y4 := by omega
        have k5 : d.month / 10 % 10 = digitVal m1 := by omega
        have k6 : d.month % 10 = digitVal m2 := by omega
        have k7 : d.day / 10 % 10 = digitVal d1 := by omega
        have k8 : d.day % 10 = digitVal d2 := by omega
        rw [k1, k2, k3, k4, k5, k6, k7, k8, digitChar_digitVal hy1, digitChar_digitVal hy2,
          digitChar_digitVal hy3, digitChar_digitVal hy4, digitChar_digitVal hm1,
          digitChar_digitVal hm2, digitChar_digitVal hd1, digitChar_digitVal hd2,
          ← hs] at hdata
        exact String.ext hdata.symm
      · exact Option.noConfusion h
    · exact Option.noConfusion h
  · exact Option.noConfusion h

theorem isDateString_iff (s : String) : isDateString s ↔ ∃ d, timeParse s = some d := by
  constructor
  · rintro ⟨d, hv, hy, rfl⟩
    exact ⟨d, timeParse_formatDate hv hy⟩
  · rintro ⟨d, h⟩
    obtain ⟨hv, hy, hs⟩ := timeParse_sound h
    exact ⟨d, hv, hy, hs⟩

theorem timeParse_eq_none {s : String} (h : ¬ isDateString s) : timeParse s = none := by
  cases hp : timeParse s with
  | none => rfl
  | some d => exact absurd ((isDateString_iff s).mpr ⟨d, hp⟩) h

theorem split_at_dash : ∀ (l a r b : List Char), (∀ c ∈ l, c ≠ '-') → (∀ c ∈ a, c ≠ '-') →
    l ++ '-' :: r = a ++ '-' :: b → l = a ∧ r = b := by
  intro l
  induction l with
  | nil =>
    intro a r b _ ha h
    cases a with
    | nil => simpa using h
    | cons x xs =>
      simp only [List.nil_append, List.cons_append, List.cons.injEq] at h
      exact absurd h.1.symm (ha x (List.mem_cons_self _ _))
  | cons y ys ih =>
    intro a r b hl ha h
    cases a with
    | nil =>
      simp only [List.nil_append, List.cons_append, List.cons.injEq] at h
      exact absurd h.1 (hl y (List.mem_cons_self _ _))
    | cons x xs =>
      simp only [List.cons_append, List.cons.injEq] at h
      obtain ⟨hrest, hr⟩ := ih xs r b (fun c hc => hl c (List.mem_cons_of_mem _ hc))
        (fun c hc => ha c (List.mem_cons_of_mem _ hc)) h.2
      exact ⟨by rw [h.1, hrest], hr⟩

theorem appendInt_ne_nil (w n : Nat) (hw : 0 < w) : appendInt w n ≠ [] := by
  unfold appendInt
  split
  · cases w with
    | zero => omega
    | succ w => simp [fixedDigits]
  · exact (decimal_spec n).1

theorem appendInt_no_dash (w n : Nat) : ∀ c ∈ appendInt w n, c ≠ '-' :=
  fun c hc => ne_dash_of_isDigit (appendInt_isDigit w n c hc)

theorem sprintfPad_nonneg {w : Nat} {x : Int} (hx : 0 ≤ x) :
    sprintfPad w x = appendInt w x.toNat := by
  unfold sprintfPad
  rw [if_neg (by omega)]

theorem sprintfPad_head_dash {w : Nat} {x : Int} (hx : x < 0) :
    ∃ tail, sprintfPad w x = '-' :: tail := by
  unfold sprintfPad
  rw [if_pos hx]
  exact ⟨_, rfl⟩

theorem appendInt_head_digit (w n : Nat) (hw : 0 < w) :
    ∃ c tail, appendInt w n = c :: tail ∧ isDigit c = true := by
  cases ha : appendInt w n with
  | nil => exact absurd ha (appendInt_ne_nil w n hw)
  | cons c cs => exact ⟨c, cs, rfl, appendInt_isDigit w n c (ha ▸ List.mem_cons_self _ _)⟩

/-- If the text of three padded integers is the text of a date, the integers
are the year, month and day of that date. -/
theorem sprintfDate_eq_formatDate {y m d : Int} {t : Date}
    (h : sprintfDate y m d = formatDate t) :
    y = (t.year : Int) ∧ m = (t.month : Int) ∧ d = (t.day : Int) := by
  have hdata : sprintfPad 4 y ++ '-' :: (sprintfPad 2 m ++ '-' :: sprintfPad 2 d)
      = appendInt 4 t.year ++ '-' :: (appendInt 2 t.month ++ '-' :: appendInt 2 t.day) := by
    have := congrArg String.data h
    simpa [sprintfDate, formatDate] using this
  -- the year
  have hy0 : 0 ≤ y := by
    by_contra hneg
    obtain ⟨tail, htail⟩ := sprintfPad_head_dash (w := 4) (x := y) (by omega)
    obtain ⟨c, cs, hc, hdig⟩ := appendInt_head_digit 4 t.year (by decide)
    rw [htail, hc] at hdata
    simp only [List.cons_append, List.cons.injEq] at hdata
    exact ne_dash_of_isDigit hdig hdata.1.symm
  rw [sprintfPad_nonneg hy0] at hdata
  obtain ⟨hyear, hrest⟩ := split_at_dash _ _ _ _ (appendInt_no_dash 4 y.toNat)
    (appendInt_no_dash 4 t.year) hdata
  have hyv := congrArg digitsValue hyear
  rw [digitsValue_appendInt, digitsValue_appendInt] at hyv
  -- the month
  have hm0 : 0 ≤ m := by
    by_contra hneg
    obtain ⟨tail, htail⟩ := sprintfPad_head_dash (w := 2) (x := m) (by omega)
    obtain ⟨c, cs, hc, hdig⟩ := appendInt_head_digit 2 t.month (by decide)
    rw [htail, hc] at hrest
    simp only [List.cons_append, List.cons.injEq] at hrest
    exact ne_dash_of_isDigit hdig hrest.1.symm
  rw [sprintfPad_nonneg hm0] at hrest
  obtain ⟨hmonth, hday⟩ := split_at_dash _ _ _ _ (appendInt_no_dash 2 m.toNat)
    (appendInt_no_dash 2 t.month) hrest
  have hmv := congrArg digitsValue hmonth
  rw [digitsValue_appendInt, digitsValue_appendInt] at hmv
  -- the day
  have hd0 : 0 ≤ d := by
    by_contra hneg
    obtain ⟨tail, htail⟩ := sprintfPad_head_dash (w := 2) (x := d) (by omega)
    obtain ⟨c, cs, hc, hdig⟩ := appendInt_head_digit 2 t.day (by decide)
    rw [htail, hc] at hday
    simp only [List.cons.injEq] at hday
    exact ne_dash_of_isDigit hdig hday.1.symm
  rw [sprintfPad_nonneg hd0] at hday
  have hdv := congrArg digitsValue hday
  rw [digitsValue_appendInt, digitsValue_appendInt] at hdv
  omega

theorem sprintfDate_of_nonneg {y m d : Int} (hy : 0 ≤ y) (hm : 0 ≤ m) (hd : 0 ≤ d) :
    sprintfDate y m d = formatDate { year := y.toNat, month := m.toNat, day := d.toNat } := by
  simp only [sprintfDate, formatDate, sprintfPad_nonneg hy, sprintfPad_nonneg hm,
    sprintfPad_nonneg hd]

theorem valid_of_validYMD {y m d : Int} (h : validYMD y m d) :
    ({ year := y.toNat, month := m.toNat, day := d.toNat } : Date).valid = true ∧
      y.toNat ≤ 9999 := by
  obtain ⟨h1, h2, h3, h4, h5, h6⟩ := h
  rw [valid_iff]
  simp only
  omega

/-- Parsing the text of three padded integers succeeds exactly on a valid
year, month and day, and then gives that date. -/
theorem timeParse_sprintfDate (y m d : Int) :
    (validYMD y m d →
        timeParse (sprintfDate y m d)
          = some { year := y.toNat, month := m.toNat, day := d.toNat }) ∧
      (¬ validYMD y m d → timeParse (sprintfDate y m d) = none) := by
  constructor
  · intro h
    obtain ⟨hv, hy⟩ := valid_of_validYMD h
    obtain ⟨h1, _, h3, _, h5, _⟩ := h
    rw [sprintfDate_of_nonneg h1 (by omega) (by omega)]
    exact timeParse_formatDate hv hy
  · intro h
    cases hp : timeParse (sprintfDate y m d) with
    | none => rfl
    | some t =>
      exfalso
      obtain ⟨hv, hy, hs⟩ := timeParse_sound hp
      obtain ⟨e1, e2, e3⟩ := sprintfDate_eq_formatDate hs
      obtain ⟨v1, v2, v3, v4⟩ := (valid_iff t).mp hv
      apply h
      unfold validYMD
      subst e1 e2 e3
      simp only [Int.toNat_ofNat]
      omega

/-! ## The calendar -/

theorem nextDay_valid {d : Date} (h : d.valid = true) : (nextDay d).valid = true := by
  obtain ⟨h1, h2, h3, h4⟩ := (valid_iff d).mp h
  rw [valid_iff]
  unfold nextDay
  split
  · simp only; omega
  · split
    · have := daysIn_pos (d.month + 1) d.year
      simp only; omega
    · have := daysIn_pos 1 (d.year + 1)
      simp only; omega

theorem addDays_valid : ∀ (n : Nat) {d : Date}, d.valid = true → (addDays n d).valid = true := by
  intro n
  induction n with
  | zero => intro d h; exact h
  | succ n ih => intro d h; exact ih (nextDay_valid h)

theorem year_le_nextDay (d : Date) : d.year ≤ (nextDay d).year := by
  unfold nextDay
  split
  · exact Nat.le_refl _
  · split
    · exact Nat.le_refl _
    · exact Nat.le_succ _

theorem year_le_addDays : ∀ (n : Nat) (d : Date), d.year ≤ (addDays n d).year := by
  intro n
  induction n with
  | zero => intro d; exact Nat.le_refl _
  | succ n ih => intro d; exact (year_le_nextDay d).trans (ih (nextDay d))

theorem isLeap_iff (y : Nat) :
    isLeap y = true ↔ y % 4 = 0 ∧ (y % 100 ≠ 0 ∨ y % 400 = 0) := by
  simp [isLeap]

theorem leapYearsBefore_succ (y : Nat) :
    leapYearsBefore (y + 1) = leapYearsBefore y + (if isLeap y = true then 1 else 0) := by
  by_cases hl : isLeap y = true
  · rw [if_pos hl]
    have h := (isLeap_iff y).mp hl
    unfold leapYearsBefore
    omega
  · rw [if_neg hl]
    have h := mt (isLeap_iff y).mpr hl
    unfold leapYearsBefore
    omega

theorem daysBeforeMonth_succ {m : Nat} (h1 : 1 ≤ m) (h2 : m < 12) (y : Nat) :
    daysBeforeMonth (m + 1) (isLeap y) = daysBeforeMonth m (isLeap y) + daysIn m y := by
  interval_cases m <;> cases hl : isLeap y <;> simp [daysBeforeMonth, daysIn, hl]

/-- The day after a date of the calendar has the next day number. -/
theorem dayNumber_nextDay {d : Date} (h : d.valid = true) :
    dayNumber (nextDay d) = dayNumber d + 1 := by
  obtain ⟨h1, h2, h3, h4⟩ := (valid_iff d).mp h
  unfold nextDay
  split
  · simp only [dayNumber]; omega
  · rename_i hlast
    have hday : d.day = daysIn d.month d.year := by omega
    split
    · rename_i hm
      simp only [dayNumber]
      rw [daysBeforeMonth_succ h1 hm d.year, hday]
      omega
    · rename_i hm
      have hm12 : d.month = 12 := by omega
      have hd31 : d.day = 31 := by rw [hday, hm12]; simp [daysIn]
      simp only [dayNumber, leapYearsBefore_succ, hm12, hd31]
      cases hl : isLeap d.year <;> cases hl1 : isLeap (d.year + 1) <;>
        simp [daysBeforeMonth] <;> omega

theorem dayNumber_addDays : ∀ (n : Nat) {d : Date}, d.valid = true →
    dayNumber (addDays n d) = dayNumber d + n := by
  intro n
  induction n with
  | zero => intro d _; rfl
  | succ n ih =>
    intro d h
    rw [addDays, ih (nextDay_valid h), dayNumber_nextDay h]
    omega

/-! ## Shape of the city code -/

theorem toUpperRune_ascii (lib : Lib) {c : Char} (h : c.toNat < 0x80) :
    (toUpperRune lib c).toNat < 0x80 ∧
      ¬ (97 ≤ (toUpperRune lib c).toNat ∧ (toUpperRune lib c).toNat ≤ 122) := by
  unfold toUpperRune
  rw [if_pos (by omega)]
  by_cases hl : 97 ≤ c.toNat ∧ c.toNat ≤ 122
  · rw [if_pos hl]
    obtain ⟨h1, h2⟩ := hl
    generalize c.toNat = n at h1 h2
    interval_cases n <;> decide
  · rw [if_neg hl]
    exact ⟨h, hl⟩

/-- Cutting `n` bytes from a text that begins with `n` ASCII characters cuts
those characters. -/
theorem sliceRunes_take : ∀ (n : Nat) (l : List Char), (∀ c ∈ l.take n, c.toNat < 0x80) →
    sliceRunes n l = l.take n := by
  intro n
  induction n with
  | zero => intro l _; simp [sliceRunes]
  | succ n ih =>
    intro l h
    cases l with
    | nil => simp [sliceRunes]
    | cons c cs =>
      have hc : c.toNat < 0x80 := h c (by simp)
      have hlen : runeLen c = 1 := by simp [runeLen, hc]
      simp only [sliceRunes, hlen, List.take_succ_cons]
      rw [if_pos (by omega), Nat.add_sub_cancel]
      rw [ih cs (fun d hd => h d (by simp [hd]))]

theorem length_take_three {l : List Char} (h3 : byteLen l ≥ 3)
    (h : ∀ c ∈ l.take 3, c.toNat < 0x80) : (l.take 3).length = 3 := by
  by_cases hl : 3 ≤ l.length
  · rw [List.length_take]; omega
  · exfalso
    have hall : l.take 3 = l := List.take_of_length_le (by omega)
    rw [hall] at h
    rw [byteLen_ascii l h] at h3
    omega

theorem upperPrefix3_shape (lib : Lib) {s : String} (h : startsWithAscii s)
    (h3 : byteLen s.data ≥ 3) :
    (upperPrefix3 lib s).length = 3 ∧
      ∀ c ∈ (upperPrefix3 lib s).data, c.toNat < 0x80 ∧ ¬ (97 ≤ c.toNat ∧ c.toNat ≤ 122) := by
  unfold upperPrefix3
  rw [sliceRunes_take 3 s.data h]
  constructor
  · simp only [String.length, List.length_map]
    exact length_take_three h3 h
  · intro c hc
    simp only [List.mem_map] at hc
    obtain ⟨a, ha, rfl⟩ := hc
    exact toUpperRune_ascii lib (h a ha)

theorem usableText_some {o : Option Value} {s : String} (h : usableText o = some s) :
    byteLen s.data ≥ 3 := by
  cases o with
  | none => simp [usableText] at h
  | some v =>
    cases v with
    | str t =>
      simp only [usableText] at h
      split at h
      · rename_i h3
        simp only [Option.some.injEq] at h
        rw [← h]
        exact h3
      · exact Option.noConfusion h
    | null => simp [usableText] at h
    | bool b => simp [usableText] at h
    | num x => simp [usableText] at h
    | arr xs => simp [usableText] at h
    | obj kvs => simp [usableText] at h

theorem codeFromField_eq (lib : Lib) (o : Option Value) :
    codeFromField lib o = (usableText o).map (upperPrefix3 lib) := by
  cases o with
  | none => rfl
  | some v =>
    cases v with
    | str t =>
      simp only [codeFromField, usableText]
      split <;> rfl
    | null => rfl
    | bool b => rfl
    | num x => rfl
    | arr xs => rfl
    | obj kvs => rfl

/-- The code is cut from the text `codeText` names, and is "UNK" when there is
none. -/
theorem extractCityCode_eq (lib : Lib) (param : Value) :
    extractCityCode lib param
      = match codeText param with
        | some s => upperPrefix3 lib s
        | none => "UNK" := by
  cases param with
  | null => rfl
  | bool b => rfl
  | num x => rfl
  | arr xs => rfl
  | str s =>
    simp only [extractCityCode, codeText, usableText]
    split <;> rfl
  | obj v =>
    simp only [extractCityCode, codeText, codeFromField_eq]
    cases hc : usableText (lookup "city" v) with
    | some s => rfl
    | none =>
      cases ho : usableText (lookup "original" v) with
      | some s => rfl
      | none => rfl

theorem codeText_some {param : Value} {s : String} (h : codeText param = some s) :
    byteLen s.data ≥ 3 := by
  cases param with
  | null => simp [codeText] at h
  | bool b => simp [codeText] at h
  | num x => simp [codeText] at h
  | arr xs => simp [codeText] at h
  | str t =>
    have h' : usableText (some (Value.str t)) = some s := h
    exact usableText_some h'
  | obj v =>
    simp only [codeText] at h
    cases hc : usableText (lookup "city" v) with
    | some t =>
      rw [hc] at h
      simp only [Option.some.injEq] at h
      rw [← h]
      exact usableText_some hc
    | none =>
      rw [hc] at h
      exact usableText_some h

/-- C11 (counterexample): the code cut from "Zürich" has two characters and is
not "UNK"; the code cut from "12345" is "123", whose characters are digits and
not uppercase letters. -/
theorem city_code_shape_counterexample :
    (∀ lib : Lib,
        (extractCityCode lib (Value.str "Zürich")).length = 2 ∧
          extractCityCode lib (Value.str "Zürich") ≠ "UNK") ∧
      (∀ lib : Lib, extractCityCode lib (Value.str "12345") = "123") :=
  ⟨fun lib => ⟨rfl, fun h => by
      have h2 : (extractCityCode lib (Value.str "Zürich")).length = 2 := rfl
      rw [h] at h2
      exact absurd h2 (by decide)⟩, fun _ => rfl⟩

/-- C11 (amended): for every input value such that the text the code is cut
from (the string itself, or the `city` field of an object, or else its
`original` field, when that is a string of at least 3 bytes) begins with three
ASCII characters, the code returned by `extractCityCode` is either the
sentinel "UNK" or a string of exactly 3 ASCII characters none of which is a
lowercase letter: letters come out in upper case, digits, spaces and
punctuation as they are.  What follows the first three bytes of the text, and
a field that is not read, do not matter. -/
theorem city_code_shape (lib : Lib) (param : Value)
    (h : ∀ s, codeText param = some s → startsWithAscii s) :
    extractCityCode lib param = "UNK" ∨
      ((extractCityCode lib param).length = 3 ∧
        ∀ c ∈ (extractCityCode lib param).data,
          c.toNat < 0x80 ∧ ¬ (97 ≤ c.toNat ∧ c.toNat ≤ 122)) := by
  rw [extractCityCode_eq]
  cases hc : codeText param with
  | none => exact Or.inl rfl
  | some s => exact Or.inr (upperPrefix3_shape lib (h s hc) (codeText_some hc))

/-- C11 (witness): the theorem applied to "Montréal", whose code is "MON", and
to an object with city "paris" and original "París", whose code is "PAR". -/
theorem city_code_shape_witness :
    (extractCityCode exampleLib (Value.str "Montréal") = "MON" ∧
      (extractCityCode exampleLib (Value.str "Montréal") = "UNK" ∨
        ((extractCityCode exampleLib (Value.str "Montréal")).length = 3 ∧
          ∀ c ∈ (extractCityCode exampleLib (Value.str "Montréal")).data,
            c.toNat < 0x80 ∧ ¬ (97 ≤ c.toNat ∧ c.toNat ≤ 122)))) ∧
    (extractCityCode exampleLib
        (Value.obj [("city", Value.str "paris"), ("original", Value.str "París")]) = "PAR" ∧
      (extractCityCode exampleLib
          (Value.obj [("city", Value.str "paris"), ("original", Value.str "París")]) = "UNK" ∨
        ((extractCityCode exampleLib
            (Value.obj [("city", Value.str "paris"), ("original", Value.str "París")])).length
              = 3 ∧
          ∀ c ∈ (extractCityCode exampleLib
              (Value.obj [("city", Value.str "paris"), ("original", Value.str "París")])).data,
            c.toNat < 0x80 ∧ ¬ (97 ≤ c.toNat ∧ c.toNat ≤ 122)))) :=
  ⟨⟨rfl, city_code_shape exampleLib (Value.str "Montréal") (by
      intro s hs
      have hs' : s = "Montréal" := (Option.some.inj hs).symm
      subst hs'
      intro c hc
      have hc' : c ∈ ['M', 'o', 'n'] := hc
      simp only [List.mem_cons, List.mem_singleton, List.not_mem_nil, or_false] at hc'
      rcases hc' with rfl | rfl | rfl <;> decide)⟩,
    ⟨rfl, city_code_shape exampleLib
      (Value.obj [("city", Value.str "paris"), ("original", Value.str "París")]) (by
      intro s hs
      have hs' : s = "paris" := (Option.some.inj hs).symm
      subst hs'
      intro c hc
      have hc' : c ∈ ['p', 'a', 'r'] := hc
      simp only [List.mem_cons, List.mem_singleton, List.not_mem_nil, or_false] at hc'
      rcases hc' with rfl | rfl | rfl <;> decide)⟩⟩

/-! ## The default date -/

theorem prevDay_valid {d : Date} (h : d.valid = true) : (prevDay d).valid = true := by
  obtain ⟨h1, h2, h3, h4⟩ := (valid_iff d).mp h
  rw [valid_iff]
  unfold prevDay
  split
  · simp only; omega
  · split
    · have := daysIn_pos (d.month - 1) d.year
      simp only; omega
    · have h31 : daysIn 12 (d.year - 1) = 31 := by simp [daysIn]
      simp only [h31]; omega

theorem subDays_valid : ∀ (n : Nat) {d : Date}, d.valid = true → (subDays n d).valid = true := by
  intro n
  induction n with
  | zero => intro d h; exact h
  | succ n ih => intro d h; exact ih (prevDay_valid h)

theorem shiftDays_valid (k : Int) {d : Date} (h : d.valid = true) :
    (shiftDays k d).valid = true := by
  unfold shiftDays
  split
  · exact addDays_valid _ h
  · exact subDays_valid _ h

theorem defaultDate_valid {clock : Clock} (h : clock.today.valid = true) :
    (defaultDate clock).valid = true :=
  shiftDays_valid _ h

/-- The default date is 7 days after today when the local time of day moved by
the change of offset stays within the day, 8 days after when it passes the
next midnight, 6 days after when it falls before the last one. -/
theorem defaultDate_cases (clock : Clock) :
    (0 ≤ (clock.secondOfDay : Int) + clock.offsetChange ∧
        (clock.secondOfDay : Int) + clock.offsetChange < 86400 →
      defaultDate clock = addDays 7 clock.today) ∧
    (86400 ≤ (clock.secondOfDay : Int) + clock.offsetChange ∧
        (clock.secondOfDay : Int) + clock.offsetChange < 172800 →
      defaultDate clock = addDays 8 clock.today) ∧
    (-86400 ≤ (clock.secondOfDay : Int) + clock.offsetChange ∧
        (clock.secondOfDay : Int) + clock.offsetChange < 0 →
      defaultDate clock = addDays 6 clock.today) := by
  have hs : ∀ n : Nat, shiftDays (n : Int) clock.today = addDays n clock.today := by
    intro n
    unfold shiftDays
    rw [if_pos (Int.ofNat_nonneg n), Int.toNat_ofNat]
  refine ⟨fun h => ?_, fun h => ?_, fun h => ?_⟩
  · have hk : 7 + ((clock.secondOfDay : Int) + clock.offsetChange) / 86400 = ((7 : Nat) : Int) := by
      omega
    unfold defaultDate
    rw [hk, hs]
  · have hk : 7 + ((clock.secondOfDay : Int) + clock.offsetChange) / 86400 = ((8 : Nat) : Int) := by
      omega
    unfold defaultDate
    rw [hk, hs]
  · have hk : 7 + ((clock.secondOfDay : Int) + clock.offsetChange) / 86400 = ((6 : Nat) : Int) := by
      omega
    unfold defaultDate
    rw [hk, hs]

/-! ## The departure date -/

theorem parseDepartureDate_str (lib : Lib) (clock : Clock) (s : String) :
    parseDepartureDate lib clock (Value.str s)
      = match timeParse s with
        | none => formatDate (defaultDate clock)
        | some _ => s := rfl

theorem parseDepartureDate_obj (lib : Lib) (clock : Clock) (v : List (String × Value)) :
    parseDepartureDate lib clock (Value.obj v)
      = match timeParse (sprintfDate (dateField lib v "year" clock.today.year)
          (dateField lib v "month" clock.today.month)
          (dateField lib v "day" clock.today.day)) with
        | none => formatDate (defaultDate clock)
        | some t => formatDate t := rfl

/-- C12: for every string that is a valid calendar date in the form YYYY-MM-DD,
and for every current time, `parseDepartureDate` returns the string
unchanged. -/
theorem valid_date_string_unchanged (lib : Lib) (clock : Clock) (s : String)
    (h : isDateString s) : parseDepartureDate lib clock (Value.str s) = s := by
  obtain ⟨d, hd⟩ := (isDateString_iff s).mp h
  rw [parseDepartureDate_str, hd]

/-- C12 (witness): the string "2024-02-29" is returned unchanged. -/
theorem valid_date_string_unchanged_witness :
    parseDepartureDate exampleLib noonClock (Value.str "2024-02-29") = "2024-02-29" :=
  valid_date_string_unchanged exampleLib noonClock "2024-02-29"
    ⟨{ year := 2024, month := 2, day := 29 }, rfl, by decide, rfl⟩

/-- C13 (counterexample): at 23:30 on 8 March 2025 in the zone America/New_York,
with the parameter absent, the result is "2025-03-16", while the current date
plus 7 days is 15 March 2025: 168 hours later the local clock, set forward by
an hour in between, shows 00:30 on 16 March. -/
theorem fallback_daylight_saving_counterexample :
    (∀ lib : Lib, parseDepartureDate lib springForwardClock Value.null = "2025-03-16") ∧
      formatDate (addDays 7 springForwardClock.today) = "2025-03-15" :=
  ⟨fun _ => rfl, rfl⟩

/-- C13 (amended): for a date parameter that is absent (nil), or a string that
is not a valid YYYY-MM-DD calendar date, or a boolean, a number or an array,
`parseDepartureDate` returns, formatted with the layout of YYYY-MM-DD and
without an error (the function is total), the local date of the instant
7 * 24 hours after the current time.  That date is the current date plus 7
days when the local time of day moved by the change of the zone's offset stays
within the day, in particular when the offset does not change; it is the
current date plus 8 days when that time passes the next midnight and plus 6
days when it falls before the last one. -/
theorem fallback_is_168_hours_later (lib : Lib) (clock : Clock) (param : Value)
    (h : param = Value.null ∨ (∃ s, param = Value.str s ∧ ¬ isDateString s) ∨
      (∃ b, param = Value.bool b) ∨ (∃ x, param = Value.num x) ∨
      (∃ xs, param = Value.arr xs)) :
    parseDepartureDate lib clock param = formatDate (defaultDate clock) ∧
      (0 ≤ (clock.secondOfDay : Int) + clock.offsetChange ∧
          (clock.secondOfDay : Int) + clock.offsetChange < 86400 →
        parseDepartureDate lib clock param = formatDate (addDays 7 clock.today)) ∧
      (86400 ≤ (clock.secondOfDay : Int) + clock.offsetChange ∧
          (clock.secondOfDay : Int) + clock.offsetChange < 172800 →
        parseDepartureDate lib clock param = formatDate (addDays 8 clock.today)) ∧
      (-86400 ≤ (clock.secondOfDay : Int) + clock.offsetChange ∧
          (clock.secondOfDay : Int) + clock.offsetChange < 0 →
        parseDepartureDate lib clock param = formatDate (addDays 6 clock.today)) := by
  have hdef : parseDepartureDate lib clock param = formatDate (defaultDate clock) := by
    rcases h with rfl | ⟨s, rfl, hs⟩ | ⟨b, rfl⟩ | ⟨x, rfl⟩ | ⟨xs, rfl⟩
    · rfl
    · rw [parseDepartureDate_str, timeParse_eq_none hs]
    · rfl
    · rfl
    · rfl
  obtain ⟨h7, h8, h6⟩ := defaultDate_cases clock
  refine ⟨hdef, fun hc => ?_, fun hc => ?_, fun hc => ?_⟩
  · rw [hdef, h7 hc]
  · rw [hdef, h8 hc]
  · rw [hdef, h6 hc]

/-- C13 (witness): at noon on 28 November 2025 the impossible date "2025-02-30"
gives 5 December 2025, seven days later; at 00:30 on 1 November 2025 in New
York a number gives 7 November 2025, six days later. -/
theorem fallback_is_168_hours_later_witness :
    parseDepartureDate exampleLib noonClock (Value.str "2025-02-30") = "2025-12-05" ∧
      parseDepartureDate exampleLib fallBackClock (Value.num 5) = "2025-11-07" :=
  ⟨((fallback_is_168_hours_later exampleLib noonClock (Value.str "2025-02-30")
      (Or.inr (Or.inl ⟨"2025-02-30", rfl, fun hd =>
        Exists.elim ((isDateString_iff _).mp hd) (fun _ hp => Option.noConfusion hp)⟩))).2.1
      (by decide)).trans (by rfl),
    ((fallback_is_168_hours_later exampleLib fallBackClock (Value.num 5)
      (Or.inr (Or.inr (Or.inr (Or.inl ⟨5, rfl⟩))))).2.2.2 (by decide)).trans (by rfl)⟩

/-- The conversion to `int` of a number whose integer part fits in 64 bits is
its truncation toward zero. -/
theorem floatToInt_of_fits (lib : Lib) (x : ℚ)
    (h : -(2 ^ 63) ≤ truncate x ∧ truncate x < 2 ^ 63) : floatToInt lib x = truncate x := by
  unfold floatToInt
  unfold truncate at h
  rw [if_pos h]
  rfl

theorem isComponent_dateField (lib : Lib) (v : List (String × Value)) (key : String)
    (today : Nat) : isComponent v key today (dateField lib v key today) := by
  unfold isComponent dateField
  cases hi : index v key with
  | num x =>
    by_cases hfit : -(2 ^ 63) ≤ truncate x ∧ truncate x < 2 ^ 63
    · simp only [if_pos hfit]
      exact floatToInt_of_fits lib x hfit
    · simp only [if_neg hfit]
      unfold truncate at hfit
      unfold floatToInt
      rw [if_neg hfit]
      have h1 := Int.le_bmod (x := lib.convertOverflow x) (m := 2 ^ 64) (by decide)
      have h2 := Int.bmod_lt (x := lib.convertOverflow x) (m := 2 ^ 64) (by decide)
      constructor
      · have e : ((2 ^ 64 : Nat) : Int) / 2 = 2 ^ 63 := by decide
        rw [e] at h1
        exact h1
      · have e : (((2 ^ 64 : Nat) : Int) + 1) / 2 = 2 ^ 63 := by decide
        rw [e] at h2
        exact h2
  | null => rfl
  | bool b => rfl
  | str s => rfl
  | arr xs => rfl
  | obj kvs => rfl

theorem isLeapYear_cast (n : Nat) : isLeapYear (n : Int) = isLeap n := by
  rw [Bool.eq_iff_iff, isLeap_iff]
  simp only [isLeapYear, Bool.and_eq_true, Bool.or_eq_true, beq_iff_eq, bne_iff_ne, ne_eq]
  omega

theorem daysOfMonth_cast (m n : Nat) : daysOfMonth (m : Int) (n : Int) = (daysIn m n : Int) := by
  unfold daysOfMonth daysIn
  rw [isLeapYear_cast]
  have e2 : ((m : Int) = 2) = (m = 2) := by simp only [eq_iff_iff]; omega
  have e4 : ((m : Int) = 4 ∨ (m : Int) = 6 ∨ (m : Int) = 9 ∨ (m : Int) = 11)
      = (m = 4 ∨ m = 6 ∨ m = 9 ∨ m = 11) := by simp only [eq_iff_iff]; omega
  simp only [e2, e4]
  split
  · split <;> rfl
  · split <;> rfl

theorem validYMD_iff (y m d : Int) :
    validYMD y m d ↔ (isCalendarDate y m d ∧ 0 ≤ y ∧ y ≤ 9999) := by
  unfold validYMD isCalendarDate
  constructor
  · rintro ⟨h1, h2, h3, h4, h5, h6⟩
    have e := daysOfMonth_cast m.toNat y.toNat
    rw [Int.toNat_of_nonneg h1, Int.toNat_of_nonneg (by omega : 0 ≤ m)] at e
    exact ⟨⟨h3, h4, h5, by rw [e]; exact h6⟩, h1, h2⟩
  · rintro ⟨⟨h3, h4, h5, h6⟩, h1, h2⟩
    have e := daysOfMonth_cast m.toNat y.toNat
    rw [Int.toNat_of_nonneg h1, Int.toNat_of_nonneg (by omega : 0 ≤ m)] at e
    exact ⟨h1, h2, h3, h4, h5, by rw [← e]; exact h6⟩

/-- C14 (counterexample): year 10000, month 1, day 1 is a valid calendar date,
yet at noon on 28 November 2025 the result is the default date, 5 December
2025, and not that date; so it is for year -1, month 1, day 1; and at 23:30 on
8 March 2025 in the zone America/New_York the impossible date month 2, day 30
gives "2025-03-16", while today plus 7 days is 15 March 2025. -/
theorem structured_date_counterexample :
    (isCalendarDate 10000 1 1 ∧
      ∀ lib : Lib,
        parseDepartureDate lib noonClock
          (Value.obj [("year", Value.num 10000), ("month", Value.num 1), ("day", Value.num 1)])
          = "2025-12-05") ∧
    (isCalendarDate (-1) 1 1 ∧
      ∀ lib : Lib,
        parseDepartureDate lib noonClock
          (Value.obj [("year", Value.num (-1)), ("month", Value.num 1), ("day", Value.num 1)])
          = "2025-12-05") ∧
    ((∀ lib : Lib,
        parseDepartureDate lib springForwardClock
          (Value.obj [("month", Value.num 2), ("day", Value.num 30)]) = "2025-03-16") ∧
      formatDate (addDays 7 springForwardClock.today) = "2025-03-15") := by
  refine ⟨⟨by unfold isCalendarDate; decide, fun lib => ?_⟩,
    ⟨by unfold isCalendarDate; decide, fun lib => ?_⟩, ⟨fun lib => ?_, rfl⟩⟩
  · rw [parseDepartureDate_obj]
    have hy : dateField lib
        [("year", Value.num 10000), ("month", Value.num 1), ("day", Value.num 1)] "year"
        noonClock.today.year = 10000 := rfl
    have hm : dateField lib
        [("year", Value.num 10000), ("month", Value.num 1), ("day", Value.num 1)] "month"
        noonClock.today.month = 1 := rfl
    have hd : dateField lib
        [("year", Value.num 10000), ("month", Value.num 1), ("day", Value.num 1)] "day"
        noonClock.today.day = 1 := rfl
    rw [hy, hm, hd]
    rfl
  · rw [parseDepartureDate_obj]
    have hy : dateField lib
        [("year", Value.num (-1)), ("month", Value.num 1), ("day", Value.num 1)] "year"
        noonClock.today.year = -1 := rfl
    have hm : dateField lib
        [("year", Value.num (-1)), ("month", Value.num 1), ("day", Value.num 1)] "month"
        noonClock.today.month = 1 := rfl
    have hd : dateField lib
        [("year", Value.num (-1)), ("month", Value.num 1), ("day", Value.num 1)] "day"
        noonClock.today.day = 1 := rfl
    rw [hy, hm, hd]
    rfl
  · rw [parseDepartureDate_obj]
    have hy : dateField lib [("month", Value.num 2), ("day", Value.num 30)] "year"
        springForwardClock.today.year = 2025 := rfl
    have hm : dateField lib [("month", Value.num 2), ("day", Value.num 30)] "month"
        springForwardClock.today.month = 2 := rfl
    have hd : dateField lib [("month", Value.num 2), ("day", Value.num 30)] "day"
        springForwardClock.today.day = 30 := rfl
    rw [hy, hm, hd]
    rfl

/-- C14 (amended): for every structured date parameter there are a year, a
month and a day, each the numeric field of that name truncated toward zero (a
field whose integer part does not fit in 64 bits gives some 64-bit integer),
or today's year, month or day when the field is absent or not a number, such
that: if they form a valid calendar date whose year is from 0 to 9999 the
result is that date as YYYY-MM-DD, and otherwise (day 30 of February, a year
of five digits, a negative year) it is the default date, the local date
7 * 24 hours after the current time; the function is total. -/
theorem structured_date (lib : Lib) (clock : Clock) (v : List (String × Value)) :
    ∃ year month day : Int,
      isComponent v "year" clock.today.year year ∧
      isComponent v "month" clock.today.month month ∧
      isComponent v "day" clock.today.day day ∧
      ((isCalendarDate year month day ∧ 0 ≤ year ∧ year ≤ 9999) →
        parseDepartureDate lib clock (Value.obj v)
          = formatDate { year := year.toNat, month := month.toNat, day := day.toNat }) ∧
      (¬ (isCalendarDate year month day ∧ 0 ≤ year ∧ year ≤ 9999) →
        parseDepartureDate lib clock (Value.obj v) = formatDate (defaultDate clock)) := by
  refine ⟨dateField lib v "year" clock.today.year, dateField lib v "month" clock.today.month,
    dateField lib v "day" clock.today.day, isComponent_dateField lib v "year" _,
    isComponent_dateField lib v "month" _, isComponent_dateField lib v "day" _, ?_, ?_⟩
  · intro h
    rw [parseDepartureDate_obj,
      (timeParse_sprintfDate _ _ _).1 ((validYMD_iff _ _ _).mpr h)]
  · intro h
    rw [parseDepartureDate_obj,
      (timeParse_sprintfDate _ _ _).2 (fun hv => h ((validYMD_iff _ _ _).mp hv))]

/-- C14 (witness): the theorem at noon on 28 November 2025 and the fields year
2026, month 2, day 28: the components are those numbers, they form a valid
calendar date, and the result is "2026-02-28". -/
theorem structured_date_witness :
    parseDepartureDate exampleLib noonClock
      (Value.obj [("year", Value.num 2026), ("month", Value.num 2), ("day", Value.num 28)])
      = "2026-02-28" := by
  obtain ⟨y, m, d, hy, hm, hd, hvalid, _⟩ := structured_date exampleLib noonClock
    [("year", Value.num 2026), ("month", Value.num 2), ("day", Value.num 28)]
  have hy2 : y = truncate 2026 := by
    have h := hy
    change (if -(2 ^ 63) ≤ truncate 2026 ∧ truncate 2026 < 2 ^ 63 then y = truncate 2026
      else -(2 ^ 63) ≤ y ∧ y < 2 ^ 63) at h
    rw [if_pos (by decide)] at h
    exact h
  have hm2 : m = truncate 2 := by
    have h := hm
    change (if -(2 ^ 63) ≤ truncate 2 ∧ truncate 2 < 2 ^ 63 then m = truncate 2
      else -(2 ^ 63) ≤ m ∧ m < 2 ^ 63) at h
    rw [if_pos (by decide)] at h
    exact h
  have hd2 : d = truncate 28 := by
    have h := hd
    change (if -(2 ^ 63) ≤ truncate 28 ∧ truncate 28 < 2 ^ 63 then d = truncate 28
      else -(2 ^ 63) ≤ d ∧ d < 2 ^ 63) at h
    rw [if_pos (by decide)] at h
    exact h
  subst hy2 hm2 hd2
  exact (hvalid (by unfold isCalendarDate; decide)).trans (by rfl)

/-- The examples of the specification for a structured date, at noon on 28
November 2025: year 2025, month 2, day 30 falls back to the default date; a
lone day takes today's year and month; a day that is not a number is
today's. -/
theorem structured_date_examples :
    parseDepartureDate exampleLib noonClock
        (Value.obj [("year", Value.num 2025), ("month", Value.num 2), ("day", Value.num 30)])
      = "2025-12-05" ∧
    parseDepartureDate exampleLib noonClock (Value.obj [("day", Value.num 3)])
      = "2025-11-03" ∧
    parseDepartureDate exampleLib noonClock
        (Value.obj [("year", Value.num 2026), ("month", Value.num 2),
          ("day", Value.str "x")]) = "2026-02-28" :=
  ⟨by rfl, by rfl, by rfl⟩

/-- C15 (counterexample): when the clock reads 30 December 9999 and the
parameter is absent, the departure date is "10000-01-06", which is not in the
form YYYY-MM-DD. -/
theorem departure_date_year_overflow_counterexample :
    (∀ lib : Lib, parseDepartureDate lib endOfYearsClock Value.null = "10000-01-06") ∧
      ¬ isDateString "10000-01-06" :=
  ⟨fun _ => rfl, fun hd =>
    Exists.elim ((isDateString_iff _).mp hd) (fun _ hp => Option.noConfusion hp)⟩

/-- C15 (amended): for every date parameter value and every current time whose
default date, the local date 7 * 24 hours later, is not later than 31 December
9999, the departure date returned by `parseDepartureDate` is a string in the
form YYYY-MM-DD denoting a valid calendar date. -/
theorem departure_date_is_date_string (lib : Lib) (clock : Clock) (param : Value)
    (hnow : clock.today.valid = true) (hrange : (defaultDate clock).year ≤ 9999) :
    isDateString (parseDepartureDate lib clock param) := by
  have hdefault : isDateString (formatDate (defaultDate clock)) :=
    ⟨defaultDate clock, defaultDate_valid hnow, hrange, rfl⟩
  cases param with
  | null => exact hdefault
  | bool b => exact hdefault
  | num x => exact hdefault
  | arr xs => exact hdefault
  | str s =>
    rw [parseDepartureDate_str]
    cases hp : timeParse s with
    | none => exact hdefault
    | some d => exact (isDateString_iff s).mpr ⟨d, hp⟩
  | obj v =>
    rw [parseDepartureDate_obj]
    cases hp : timeParse (sprintfDate (dateField lib v "year" clock.today.year)
        (dateField lib v "month" clock.today.month)
        (dateField lib v "day" clock.today.day)) with
    | none => exact hdefault
    | some t =>
      obtain ⟨hv, hy, _⟩ := timeParse_sound hp
      exact ⟨t, hv, hy, rfl⟩

/-- C15 (witness): at noon on 28 November 2025 a structured date with an
impossible day gives a date string. -/
theorem departure_date_is_date_string_witness :
    isDateString
      (parseDepartureDate exampleLib noonClock
        (Value.obj [("month", Value.num 2), ("day", Value.num 30)])) :=
  departure_date_is_date_string exampleLib noonClock
    (Value.obj [("month", Value.num 2), ("day", Value.num 30)]) (by decide) (by decide)

/-! ## The return date -/

/-- C16 (counterexample): for the departure date "9999-12-28", a valid calendar
date in the form YYYY-MM-DD, the return date is "10000-01-04", which is not in
that form. -/
theorem return_date_year_overflow_counterexample :
    isDateString "9999-12-28" ∧
      SkyscannerWebhook.returnDate "9999-12-28" = "10000-01-04" ∧
      ¬ isDateString "10000-01-04" :=
  ⟨⟨{ year := 9999, month := 12, day := 28 }, rfl, by decide, rfl⟩, rfl, fun hd =>
    Exists.elim ((isDateString_iff _).mp hd) (fun _ hp => Option.noConfusion hp)⟩

/-- C16 (amended): for every normalized departure date whose date 7 days later
is not later than 31 December 9999, the return date is the valid calendar date
in the form YYYY-MM-DD that lies exactly 7 days after the departure date: the
date reached by seven steps to the next day, whose day number is 7 more. -/
theorem return_date_is_seven_days_later (d : Date) (hv : d.valid = true)
    (hrange : (addDays 7 d).year ≤ 9999) :
    SkyscannerWebhook.returnDate (formatDate d) = formatDate (addDays 7 d) ∧
      (addDays 7 d).valid = true ∧
      isDateString (SkyscannerWebhook.returnDate (formatDate d)) ∧
      dayNumber (addDays 7 d) = dayNumber d + 7 := by
  have hy : d.year ≤ 9999 := (year_le_addDays 7 d).trans hrange
  have hret : SkyscannerWebhook.returnDate (formatDate d) = formatDate (addDays 7 d) := by
    simp only [SkyscannerWebhook.returnDate, timeParse_formatDate hv hy, Option.getD_some]
  refine ⟨hret, addDays_valid 7 hv, ?_, dayNumber_addDays 7 hv⟩
  rw [hret]
  exact ⟨addDays 7 d, addDays_valid 7 hv, hrange, rfl⟩

/-- C16 (witness): 28 December 2024 gives 4 January 2025, and 25 February 2024
gives 3 March 2024. -/
theorem return_date_is_seven_days_later_witness :
    SkyscannerWebhook.returnDate "2024-12-28" = "2025-01-04" ∧
      SkyscannerWebhook.returnDate "2024-02-25" = "2024-03-03" :=
  ⟨(return_date_is_seven_days_later { year := 2024, month := 12, day := 28 }
      (by decide) (by decide)).1,
    (return_date_is_seven_days_later { year := 2024, month := 2, day := 25 }
      (by decide) (by decide)).1⟩

/-! ## The passenger count -/

/-- The function `strconv.Atoi` reads back the decimal text of an integer that
fits in 64 bits. -/
theorem atoi_renderInt (n : Int) (h : -(2 ^ 63) ≤ n ∧ n < 2 ^ 63) :
    atoi (renderInt n) = some n := by
  by_cases hn : n < 0
  · obtain ⟨hne, hdig, hval⟩ := decimal_spec n.natAbs
    have hdata : (renderInt n).data = '-' :: decimal n.natAbs := by
      simp [renderInt, hn]
    unfold atoi
    rw [hdata]
    have hall : (decimal n.natAbs).all isDigit = true := List.all_eq_true.mpr hdig
    have hemp : (decimal n.natAbs).isEmpty = false := by
      cases hd : decimal n.natAbs with
      | nil => exact absurd hd hne
      | cons c cs => rfl
    simp only [true_or, if_true, decide_True, hall, hemp, Bool.not_true, Bool.or_false,
      Bool.false_eq_true, if_false, hval]
    have hv : -((n.natAbs : Nat) : Int) = n := by omega
    rw [hv, if_pos h]
  · obtain ⟨hne, hdig, hval⟩ := decimal_spec n.toNat
    have hdata : (renderInt n).data = decimal n.toNat := by
      simp [renderInt, hn]
    unfold atoi
    rw [hdata]
    cases hd : decimal n.toNat with
    | nil => exact absurd hd hne
    | cons c cs =>
      have hc : isDigit c = true := hdig c (hd ▸ List.mem_cons_self _ _)
      have hall : (c :: cs).all isDigit = true := List.all_eq_true.mpr (hd ▸ hdig)
      have hval' : digitsValue (c :: cs) = n.toNat := hd ▸ hval
      have hnd : c ≠ '-' := ne_dash_of_isDigit hc
      have hnp : c ≠ '+' := ne_plus_of_isDigit hc
      simp only [hnd, hnp, or_self, if_false, hall, List.isEmpty_cons, Bool.not_true,
        Bool.or_false, Bool.false_eq_true, decide_False, hval']
      have hv : ((n.toNat : Nat) : Int) = n := by omega
      rw [hv, if_pos h]

theorem adults_cases (lib : Lib) (params : List (String × Value)) :
    SkyscannerWebhook.adults lib params
      = match lookup "passenger_count" params with
        | some (Value.num v) => floatToInt lib v
        | some (Value.str v) =>
          match atoi v with
          | some i => i
          | none => 1
        | _ => 1 := rfl

/-- C17 (counterexample): the string "99999999999999999999" is the decimal text
of an integer, yet the passenger count is 1; the number 2^64 is not truncated
to 2^64, the count being a 64-bit integer. -/
theorem passenger_count_out_of_range_counterexample :
    renderInt 99999999999999999999 = "99999999999999999999" ∧
      (∀ lib : Lib,
        SkyscannerWebhook.adults lib [("passenger_count", Value.str "99999999999999999999")]
          = 1) ∧
      truncate 18446744073709551616 = 18446744073709551616 ∧
      (∀ lib : Lib,
        SkyscannerWebhook.adults lib [("passenger_count", Value.num 18446744073709551616)]
          ≠ 18446744073709551616) := by
  refine ⟨by rfl, fun _ => rfl, by rfl, fun lib => ?_⟩
  have hval : SkyscannerWebhook.adults lib
      [("passenger_count", Value.num 18446744073709551616)]
      = Int.bmod (lib.convertOverflow 18446744073709551616) (2 ^ 64) := by rfl
  rw [hval]
  have hlt := Int.bmod_lt (x := lib.convertOverflow 18446744073709551616) (m := 2 ^ 64)
    (by decide)
  intro heq
  rw [heq] at hlt
  exact absurd hlt (by decide)

/-- C17 (amended): a numeric parameter whose integer part fits in 64 bits
yields its value truncated to an integer; a string that is the decimal text of
an integer that fits in 64 bits yields that integer, zero and negative values
included; an absent parameter, a string that `strconv.Atoi` rejects, or a value
of any other type yields 1. -/
theorem passenger_count_normalization (lib : Lib) (params : List (String × Value)) :
    (∀ x, lookup "passenger_count" params = some (Value.num x) →
        -(2 ^ 63) ≤ truncate x ∧ truncate x < 2 ^ 63 →
        SkyscannerWebhook.adults lib params = truncate x) ∧
    (∀ n : Int, -(2 ^ 63) ≤ n ∧ n < 2 ^ 63 →
        lookup "passenger_count" params = some (Value.str (renderInt n)) →
        SkyscannerWebhook.adults lib params = n) ∧
    (lookup "passenger_count" params = none → SkyscannerWebhook.adults lib params = 1) ∧
    (∀ s, lookup "passenger_count" params = some (Value.str s) → atoi s = none →
        SkyscannerWebhook.adults lib params = 1) ∧
    (∀ v, lookup "passenger_count" params = some v →
        (v = Value.null ∨ (∃ b, v = Value.bool b) ∨ (∃ xs, v = Value.arr xs) ∨
          (∃ kvs, v = Value.obj kvs)) →
        SkyscannerWebhook.adults lib params = 1) := by
  refine ⟨?_, ?_, ?_, ?_, ?_⟩
  · intro x hx hfits
    rw [adults_cases, hx]
    exact floatToInt_of_fits lib x hfits
  · intro n hn hs
    rw [adults_cases, hs]
    simp only [atoi_renderInt n hn]
  · intro h
    rw [adults_cases, h]
  · intro s hs hnone
    rw [adults_cases, hs]
    simp only [hnone]
  · intro v hv hshape
    rw [adults_cases, hv]
    rcases hshape with rfl | ⟨b, rfl⟩ | ⟨xs, rfl⟩ | ⟨kvs, rfl⟩ <;> rfl

/-- The examples of the specification for the passenger count: "3" gives 3,
2.0 gives 2, an absent or unparseable count gives 1, and zero and negative
counts pass through. -/
theorem passenger_count_examples (lib : Lib) :
    SkyscannerWebhook.adults lib [("passenger_count", Value.str "3")] = 3 ∧
    SkyscannerWebhook.adults lib [("passenger_count", Value.num 2)] = 2 ∧
    SkyscannerWebhook.adults lib [] = 1 ∧
    SkyscannerWebhook.adults lib [("passenger_count", Value.str "three")] = 1 ∧
    SkyscannerWebhook.adults lib [("passenger_count", Value.str "2.5")] = 1 ∧
    SkyscannerWebhook.adults lib [("passenger_count", Value.bool true)] = 1 ∧
    SkyscannerWebhook.adults lib [("passenger_count", Value.num 0)] = 0 ∧
    SkyscannerWebhook.adults lib [("passenger_count", Value.str "-2")] = -2 :=
  ⟨rfl, rfl, rfl, rfl, rfl, rfl, rfl, rfl⟩

/-- C18 (counterexample): a passenger count of 0 given as a number, and of -2
given as a string, are placed in the query as they are. -/
theorem passenger_count_not_positive_counterexample :
    (∀ (lib : Lib) (clock : Clock),
        (SkyscannerWebhook.query lib clock [("passenger_count", Value.num 0)]).adults = 0) ∧
      (∀ (lib : Lib) (clock : Clock),
        (SkyscannerWebhook.query lib clock [("passenger_count", Value.str "-2")]).adults = -2) :=
  ⟨fun _ _ => rfl, fun _ _ => rfl⟩

/-- C18 (amended): for every request parameter map, the normalized passenger
count placed in the provider query is an integer that is at least 1, unless
the `passenger_count` parameter is a number that converts to an integer below
1 or a string that `strconv.Atoi` reads as an integer below 1; such a count is
placed in the query unchanged. -/
theorem passenger_count_positive_unless_given (lib : Lib) (clock : Clock)
    (params : List (String × Value)) :
    1 ≤ (SkyscannerWebhook.query lib clock params).adults ∨
      (∃ x, lookup "passenger_count" params = some (Value.num x) ∧ floatToInt lib x < 1 ∧
        (SkyscannerWebhook.query lib clock params).adults = floatToInt lib x) ∨
      (∃ s n, lookup "passenger_count" params = some (Value.str s) ∧ atoi s = some n ∧
        n < 1 ∧ (SkyscannerWebhook.query lib clock params).adults = n) := by
  have hq : (SkyscannerWebhook.query lib clock params).adults
      = SkyscannerWebhook.adults lib params := rfl
  rw [hq, adults_cases]
  cases hl : lookup "passenger_count" params with
  | none => exact Or.inl (le_refl (1 : Int))
  | some v =>
    cases v with
    | null => exact Or.inl (le_refl (1 : Int))
    | bool b => exact Or.inl (le_refl (1 : Int))
    | arr xs => exact Or.inl (le_refl (1 : Int))
    | obj kvs => exact Or.inl (le_refl (1 : Int))
    | num x =>
      by_cases hx : 1 ≤ floatToInt lib x
      · exact Or.inl hx
      · exact Or.inr (Or.inl ⟨x, rfl, by omega, rfl⟩)
    | str s =>
      dsimp only
      cases ha : atoi s with
      | none => exact Or.inl (le_refl (1 : Int))
      | some n =>
        by_cases hn : 1 ≤ n
        · exact Or.inl hn
        · exact Or.inr (Or.inr ⟨s, n, rfl, ha, by omega, rfl⟩)

/-! ## Duration -/

theorem durationOf_cases (flightGroup : List (String × Value)) :
    (∀ v, lookup "total_duration" flightGroup = some v → v ≠ Value.null →
        durationOf flightGroup = v) ∧
      ((lookup "total_duration" flightGroup = none ∨
          lookup "total_duration" flightGroup = some Value.null) →
        (∀ v, lookup "duration" flightGroup = some v → durationOf flightGroup = v) ∧
        (lookup "duration" flightGroup = none → durationOf flightGroup = Value.null)) := by
  constructor
  · intro v hv hne
    unfold durationOf index
    rw [hv]
    cases v with
    | null => exact absurd rfl hne
    | bool b => rfl
    | num x => rfl
    | str s => rfl
    | arr xs => rfl
    | obj kvs => rfl
  · intro h
    have hnull : index flightGroup "total_duration" = Value.null := by
      unfold index
      rcases h with h | h <;> rw [h] <;> rfl
    have hd : durationOf flightGroup = index flightGroup "duration" := by
      unfold durationOf
      rw [hnull]
    constructor
    · intro v hv
      rw [hd]
      unfold index
      rw [hv]
      rfl
    · intro hv
      rw [hd]
      unfold index
      rw [hv]
      rfl

/-- C19: every option of a reply comes from a group of the concatenated list,
an object; its duration is the group's `total_duration` value when that is
present (not nil), otherwise the group's `duration` value when that is
present, otherwise nil; the value is the provider's, as it came. -/
theorem duration_resolution (lib : Lib) (dc ac dd : String)
    (serpData : List (String × Value)) (r : Reply) (opt : FlightOption)
    (h : SkyscannerWebhook.results lib dc ac dd serpData = some r)
    (hopt : opt ∈ r.flightOptions) :
    ∃ (i : Nat) (flightGroup : List (String × Value)) (line : String),
      (allFlights serpData)[i]? = some (Value.obj flightGroup) ∧
      flightGroupStep lib dc ac dd i (Value.obj flightGroup) = some (Step.emit line opt) ∧
      (∀ v, lookup "total_duration" flightGroup = some v → v ≠ Value.null →
        opt.Duration = v) ∧
      ((lookup "total_duration" flightGroup = none ∨
          lookup "total_duration" flightGroup = some Value.null) →
        (∀ v, lookup "duration" flightGroup = some v → opt.Duration = v) ∧
        (lookup "duration" flightGroup = none → opt.Duration = Value.null)) := by
  obtain ⟨i, g, line, _, hget, hstep⟩ := option_source h hopt
  obtain ⟨flightGroup, first, more, info, hg, _, _, hoptEq⟩ := step_emit_inv hstep
  subst hg
  have hdur : opt.Duration = durationOf flightGroup := by rw [hoptEq]
  rw [hdur]
  exact ⟨i, flightGroup, line, hget, hstep, durationOf_cases flightGroup⟩

/-- C19 (witness): the theorem applied to the first option of a sample
response, whose group has a `total_duration` of 300. -/
theorem duration_resolution_witness :
    ∃ r opt, SkyscannerWebhook.results exampleLib "JFK" "LAX" "2025-06-01" sevenGroupResponse
          = some r ∧ opt ∈ r.flightOptions ∧
      ∃ (i : Nat) (flightGroup : List (String × Value)) (line : String),
        (allFlights sevenGroupResponse)[i]? = some (Value.obj flightGroup) ∧
        flightGroupStep exampleLib "JFK" "LAX" "2025-06-01" i (Value.obj flightGroup)
          = some (Step.emit line opt) ∧
        (∀ v, lookup "total_duration" flightGroup = some v → v ≠ Value.null →
          opt.Duration = v) ∧
        ((lookup "total_duration" flightGroup = none ∨
            lookup "total_duration" flightGroup = some Value.null) →
          (∀ v, lookup "duration" flightGroup = some v → opt.Duration = v) ∧
          (lookup "duration" flightGroup = none → opt.Duration = Value.null)) :=
  ⟨_, _, rfl, List.mem_cons_self _ _,
    duration_resolution exampleLib "JFK" "LAX" "2025-06-01" sevenGroupResponse
      _ _ rfl (List.mem_cons_self _ _)⟩

/-! ## IDs and positions -/

theorem step_emit_line {lib : Lib} {dc ac dd : String} {i : Nat} {f : Value}
    {line : String} {opt : FlightOption}
    (h : flightGroupStep lib dc ac dd i f = some (Step.emit line opt)) :
    ∃ rest, line = sprintD (i + 1) ++ ". " ++ rest := by
  unfold flightGroupStep at h
  split at h
  · split at h
    · simp at h
    · simp only at h
      split at h
      · simp at h
      · simp only [Option.some.injEq, Step.emit.injEq] at h
        rw [← h.1]
        simp only [String.append_assoc]
        exact ⟨_, rfl⟩
    · simp at h
  · simp at h

theorem results_ids {lib : Lib} {dc ac dd : String} {serpData : List (String × Value)}
    {r : Reply} (h : SkyscannerWebhook.results lib dc ac dd serpData = some r) :
    r.flightOptions.map (fun o => o.ID)
      = ((((allFlights serpData).take 5).enum).filter (fun p => hasLegs p.2)).map
          (fun p => p.1 + 1) := by
  obtain ⟨_, emitted, _, hopts, hall⟩ := results_trace h
  rw [hopts, List.map_map]
  exact forall₂_map_eq (fun e p hr => emit_id hr) hall

theorem results_ids_increasing {lib : Lib} {dc ac dd : String}
    {serpData : List (String × Value)} {r : Reply}
    (h : SkyscannerWebhook.results lib dc ac dd serpData = some r) :
    (r.flightOptions.map (fun o => o.ID)).Pairwise (fun a b => a < b) := by
  rw [results_ids h]
  have hsub : (((((allFlights serpData).take 5).enum).filter (fun p => hasLegs p.2)).map
      Prod.fst).Sublist (List.range ((allFlights serpData).take 5).length) := by
    rw [← List.enum_map_fst]
    exact (List.filter_sublist _).map Prod.fst
  have hpw := (List.pairwise_lt_range _).sublist hsub
  rw [List.pairwise_map] at hpw ⊢
  exact hpw.imp (fun hab => Nat.succ_lt_succ hab)

/-- C20: for every provider response with well-formed groups the handler
replies, and each option's ID is the 1-based position of its source group in
the concatenation of `best_flights` and `other_flights`, between 1 and 5; the
message line of the option carries the same number; the IDs are strictly
increasing and pairwise distinct. -/
theorem ids_are_source_positions (lib : Lib) (dc ac dd : String)
    (serpData : List (String × Value))
    (hwf : ∀ g ∈ allFlights serpData, wellFormedGroup g = true) :
    ∃ r, SkyscannerWebhook.results lib dc ac dd serpData = some r ∧
      (∀ (j : Nat) (opt : FlightOption), r.flightOptions[j]? = some opt →
        1 ≤ opt.ID ∧ opt.ID ≤ 5 ∧
        ∃ (g : Value) (line rest : String),
          (asArray (index serpData "best_flights") ++
            asArray (index serpData "other_flights"))[opt.ID - 1]? = some g ∧
          flightGroupStep lib dc ac dd (opt.ID - 1) g = some (Step.emit line opt) ∧
          r.messageLines[j + 1]? = some line ∧
          line = sprintD opt.ID ++ ". " ++ rest) ∧
      (r.flightOptions.map (fun o => o.ID)).Pairwise (fun a b => a < b) ∧
      (r.flightOptions.map (fun o => o.ID)).Nodup := by
  obtain ⟨r, hr⟩ := results_total lib dc ac dd serpData hwf
  have hinc := results_ids_increasing hr
  refine ⟨r, hr, fun j opt hj => ?_, hinc, hinc.imp (fun hab => Nat.ne_of_lt hab)⟩
  obtain ⟨first, emitted, hlines, hopts, hall⟩ := results_trace hr
  rw [hopts, List.getElem?_map] at hj
  cases he : emitted[j]? with
  | none => rw [he] at hj; exact Option.noConfusion hj
  | some e =>
    rw [he] at hj
    simp only [Option.map_some', Option.some.injEq] at hj
    subst hj
    obtain ⟨p, hp, hstep⟩ := forall₂_getElem? hall j e he
    have hmem : p ∈ ((allFlights serpData).take 5).enum :=
      (List.mem_filter.mp (List.getElem?_mem hp)).1
    have hget := List.mem_enum_iff_getElem?.mp hmem
    rw [List.getElem?_take] at hget
    have hid : e.2.ID = p.1 + 1 := emit_id hstep
    obtain ⟨rest, hrest⟩ := step_emit_line hstep
    have hline : r.messageLines[j + 1]? = some e.1 := by
      rw [hlines, List.getElem?_cons_succ, List.getElem?_map, he]
      rfl
    by_cases hlt : p.1 < 5
    · rw [if_pos hlt] at hget
      refine ⟨by omega, by omega, p.2, e.1, rest, ?_, ?_, hline, ?_⟩
      · rw [hid, Nat.add_sub_cancel]
        exact hget
      · rw [hid, Nat.add_sub_cancel]
        exact hstep
      · rw [hid]
        exact hrest
    · rw [if_neg hlt] at hget
      exact Option.noConfusion hget

/-- C20 (witness): the theorem applied to a response whose first group has no
legs; the options carry the IDs 2 to 5. -/
theorem ids_are_source_positions_witness :
    ∃ r, SkyscannerWebhook.results exampleLib "JFK" "LAX" "2025-06-01" sixGroupResponse
          = some r ∧
      (∀ (j : Nat) (opt : FlightOption), r.flightOptions[j]? = some opt →
        1 ≤ opt.ID ∧ opt.ID ≤ 5 ∧
        ∃ (g : Value) (line rest : String),
          (asArray (index sixGroupResponse "best_flights") ++
            asArray (index sixGroupResponse "other_flights"))[opt.ID - 1]? = some g ∧
          flightGroupStep exampleLib "JFK" "LAX" "2025-06-01" (opt.ID - 1) g
            = some (Step.emit line opt) ∧
          r.messageLines[j + 1]? = some line ∧
          line = sprintD opt.ID ++ ". " ++ rest) ∧
      (r.flightOptions.map (fun o => o.ID)).Pairwise (fun a b => a < b) ∧
      (r.flightOptions.map (fun o => o.ID)).Nodup :=
  ids_are_source_positions exampleLib "JFK" "LAX" "2025-06-01" sixGroupResponse (by decide)

end FlightBooking
